import Mathlib

/-!
Verification of the covid-policy-grapher pipeline (Django app).

Shallow embedding conventions:
* Python floats are modelled as exact rationals (`ℚ`); the values flowing
  through the pipeline (stringency scores, per-million rates, percentages)
  are short decimals, for which exact rational arithmetic agrees with the
  source's float arithmetic at every comparison performed.
* Calendar dates are encoded as the natural number `y*10000 + m*100 + d`;
  this encoding is order-isomorphic to both `datetime.date` ordering and the
  ISO-string ordering the views use as dictionary keys.
* CSV numeric coercion (`_to_float` / `_to_int`, which map empty or
  unparsable cells to `None` and never raise) is modelled by feeding rows
  whose numeric fields are already `Option ℚ` / `Option Int`; date cells
  stay raw strings because `_parse_date` has interesting behaviour.
* The database is a keyed record store: association lists keyed by
  `iso_code` resp. `(iso_code, date)`, with `update_or_create` modelled as
  replace-in-place-or-append.
-/

namespace Covid

/-! ## Reducible string utilities

Core `String` functions such as `trim`, `splitOn`, `toNat?`, `contains`,
`startsWith` and `toUpper` are implemented over byte positions and do not
reduce in the kernel, so we use equivalent character-list implementations
(Python strings are character sequences, so this is also the more direct
model). -/

/-- Python `str.strip()`. -/
def pyStrip (s : String) : String :=
  String.mk (((s.data.dropWhile Char.isWhitespace).reverse.dropWhile Char.isWhitespace).reverse)

/-- Python `c in s` for a single character. -/
def strContainsChar (s : String) (c : Char) : Bool :=
  s.data.any (· = c)

/-- `String.splitOn` for a single-character separator. -/
def splitOnCharAux (sep : Char) : List Char → List Char → List (List Char)
  | [], acc => [acc.reverse]
  | c :: rest, acc =>
    if c = sep then acc.reverse :: splitOnCharAux sep rest []
    else splitOnCharAux sep rest (c :: acc)

def strSplitOnChar (sep : Char) (s : String) : List String :=
  (splitOnCharAux sep s.data []).map String.mk

def listStartsWith : List Char → List Char → Bool
  | _, [] => true
  | [], _ :: _ => false
  | a :: as, b :: bs => a = b && listStartsWith as bs

/-- Python `s.startswith(pre)`. -/
def strStartsWith (s pre : String) : Bool := listStartsWith s.data pre.data

/-- Python `needle in hay` (contiguous substring). -/
def listIsSub (needle : List Char) : List Char → Bool
  | [] => needle.isEmpty
  | c :: rest => listStartsWith (c :: rest) needle || listIsSub needle rest

/-- Python `s.upper()` (ASCII suffices here). -/
def strUpper (s : String) : String := String.mk (s.data.map Char.toUpper)

/-- Stable insertion of `x` before the first element not below it. -/
def insertLe {α : Type} (le : α → α → Bool) (x : α) : List α → List α
  | [] => [x]
  | y :: ys => if le x y then x :: y :: ys else y :: insertLe le x ys

/-- Stable sort (insertion sort).  For a total preorder the stable sorted
permutation is unique, so this agrees with Python's stable `sorted` and
with the store's `order_by`. -/
def stableSortBy {α : Type} (le : α → α → Bool) (l : List α) : List α :=
  l.foldr (insertLe le) []

/-- Decidable equality for `Except` results. -/
instance {ε α : Type} [DecidableEq ε] [DecidableEq α] : DecidableEq (Except ε α) := fun x y =>
  match x, y with
  | .ok a, .ok b => if h : a = b then .isTrue (by rw [h]) else .isFalse (by simpa using h)
  | .error a, .error b => if h : a = b then .isTrue (by rw [h]) else .isFalse (by simpa using h)
  | .ok _, .error _ => .isFalse (by simp)
  | .error _, .ok _ => .isFalse (by simp)

/-! ## Python truthiness helpers -/

/-- Truthiness of an optional string (`None` and `""` are falsy). -/
def strTruthy : Option String → Bool
  | none => false
  | some s => s ≠ ""

/-- Truthiness of an optional float (`None` and `0.0` are falsy). -/
def popTruthy : Option ℚ → Bool
  | none => false
  | some x => x ≠ 0

/-! ## `_parse_date` (import_covid_data.py lines 46–60)

`_parse_date` strips the input, returns `None` for empty input, parses
`"%Y-%m-%d"` when a hyphen is present, parses `"%Y%m%d"` for 8-character
input, and returns `None` otherwise.  Crucially, `datetime.strptime` RAISES
`ValueError` on input that merely resembles a format (contains a hyphen, or
is 8 characters long) but is not a valid date; no caller catches this.  We
model the uncaught exception as `Except.error ()`. -/

def isLeapYear (y : Nat) : Bool :=
  y % 4 == 0 && (y % 100 != 0 || y % 400 == 0)

def daysInMonth (y m : Nat) : Nat :=
  if m = 2 then (if isLeapYear y then 29 else 28)
  else if m = 4 ∨ m = 6 ∨ m = 9 ∨ m = 11 then 30
  else 31

def validYMD (y m d : Nat) : Bool :=
  1 ≤ y && y ≤ 9999 && 1 ≤ m && m ≤ 12 && 1 ≤ d && d ≤ daysInMonth y m

/-- Date encoding `y*10000 + m*100 + d` (orders like the calendar). -/
def encodeDate (y m d : Nat) : Nat := y * 10000 + m * 100 + d

def isDigits (s : String) : Bool :=
  s.length > 0 && s.data.all Char.isDigit

/-- Numeric value of a digit string. -/
def digitsToNat (s : String) : Nat :=
  s.data.foldl (fun n c => n * 10 + (c.toNat - 48)) 0

/-- `_parse_date`.  `Except.error ()` models an uncaught `ValueError` from
`datetime.strptime` (raised when the string contains a hyphen but is not a
valid `%Y-%m-%d` date, or has length 8 but is not a valid `%Y%m%d` date). -/
def parse_date (s0 : Option String) : Except Unit (Option Nat) :=
  let s := pyStrip (s0.getD "")
  if s = "" then .ok none
  else if strContainsChar s '-' then
    match strSplitOnChar '-' s with
    | [ys, ms, ds] =>
      if isDigits ys && ys.length == 4
          && isDigits ms && ms.length ≤ 2
          && isDigits ds && ds.length ≤ 2
          && validYMD (digitsToNat ys) (digitsToNat ms) (digitsToNat ds) then
        .ok (some (encodeDate (digitsToNat ys) (digitsToNat ms) (digitsToNat ds)))
      else .error ()
    | _ => .error ()
  else if s.length = 8 then
    if s.data.all Char.isDigit then
      let y := digitsToNat (s.take 4)
      let m := digitsToNat ((s.drop 4).take 2)
      let d := digitsToNat (s.drop 6)
      if validYMD y m d then .ok (some (encodeDate y m d)) else .error ()
    else .error ()
  else .ok none

/-! ## Reducible rational arithmetic

The `Rat` arithmetic operations of the standard library are marked
`@[irreducible]`, which prevents concrete evaluation inside proofs.  The
embedding therefore computes with the equivalent `mkRat`/`divInt` forms
below; the `_eq` lemmas restate them as the standard operations for use in
general reasoning. -/

def qAdd (a b : ℚ) : ℚ := mkRat (a.num * b.den + b.num * a.den) (a.den * b.den)

def qSub (a b : ℚ) : ℚ := mkRat (a.num * b.den - b.num * a.den) (a.den * b.den)

def qMul (a b : ℚ) : ℚ := mkRat (a.num * b.num) (a.den * b.den)

def qDiv (a b : ℚ) : ℚ := Rat.divInt (a.num * b.den) (a.den * b.num)

theorem qAdd_eq (a b : ℚ) : qAdd a b = a + b := (Rat.add_def' a b).symm

theorem qSub_eq (a b : ℚ) : qSub a b = a - b := (Rat.sub_def' a b).symm

theorem qMul_eq (a b : ℚ) : qMul a b = a * b := by
  rw [qMul, Rat.mul_def, Rat.normalize_eq_mkRat]

theorem qDiv_eq (a b : ℚ) : qDiv a b = a / b := (Rat.div_def' a b).symm

/-! ## Python number rendering

`str(float)` for floats whose value is a short exact decimal (the only
values the pipeline formats) prints the minimal decimal expansion, with a
trailing `.0` for integral values.  `fracDigitChars` expands the fractional
part with a fuel bound far beyond float precision. -/

def fracDigitChars : Nat → ℚ → List Char
  | 0, _ => []
  | fuel + 1, q =>
    if q = 0 then []
    else
      let d := (qMul q 10).floor
      Char.ofNat (48 + d.toNat) :: fracDigitChars fuel (qSub (qMul q 10) (d : ℚ))

/-- Model of Python `str(x)` for a nonnegative float with a short exact
decimal value. -/
def pyFloatReprPos (q : ℚ) : String :=
  let i := q.floor.toNat
  let frac := qSub q (q.floor : ℚ)
  if frac = 0 then toString i ++ ".0"
  else toString i ++ "." ++ String.mk (fracDigitChars 40 frac)

/-- Model of Python `str(x)` for a float with a short exact decimal value. -/
def pyFloatRepr (q : ℚ) : String :=
  if q < 0 then "-" ++ pyFloatReprPos (-q) else pyFloatReprPos q

def pyOptFloatRepr : Option ℚ → String
  | none => "None"
  | some q => pyFloatRepr q

def pyOptIntRepr : Option Int → String
  | none => "None"
  | some i => toString i

/-- Round half to even (Python's `round`/format rounding). -/
def roundHalfEven (q : ℚ) : Int :=
  let f := q.floor
  let r := qSub q (f : ℚ)
  if r < mkRat 1 2 then f
  else if mkRat 1 2 < r then f + 1
  else if f % 2 = 0 then f else f + 1

/-- Python `f"{q:.0f}"` (round half to even, no fractional digits; a
negative value rounding to zero prints `-0`). -/
def fmt0 (q : ℚ) : String :=
  if q < 0 then "-" ++ toString (roundHalfEven (-q)).toNat
  else toString (roundHalfEven q).toNat

/-- Python `f"{q:.1f}"` for nonnegative `q`. -/
def fmt1Pos (q : ℚ) : String :=
  let n := (roundHalfEven (qMul q 10)).toNat
  toString (n / 10) ++ "." ++ toString (n % 10)

/-- Python `f"{q:.1f}"`. -/
def fmt1 (q : ℚ) : String :=
  if q < 0 then "-" ++ fmt1Pos (-q) else fmt1Pos q

/-- Python `f"{q:+.1f}"`. -/
def fmt1Signed (q : ℚ) : String :=
  if q < 0 then "-" ++ fmt1Pos (-q) else "+" ++ fmt1Pos q

/-! ## Data model (models.py)

`Country`, `DailyMetric`, `PolicyDaily`, `PolicyEvent`.  All value fields
are independently nullable exactly as in `models.py`. -/

structure CountryRec where
  name : String
  population : Option ℚ
deriving DecidableEq, Repr

structure MetricRec where
  new_cases_smoothed : Option ℚ
  new_deaths_smoothed : Option ℚ
  total_cases : Option ℚ
  total_deaths : Option ℚ
  cases_per_million : Option ℚ
  deaths_per_million : Option ℚ
  total_vaccinations_per_hundred : Option ℚ
  people_vaccinated_per_hundred : Option ℚ
  people_fully_vaccinated_per_hundred : Option ℚ
  new_vaccinations_smoothed_per_million : Option ℚ
deriving DecidableEq, Repr

structure PolicyRec where
  stringency_index : Option ℚ
  c1_school_closing : Option Int
  c2_workplace_closing : Option Int
  c6_stay_at_home : Option Int
  c8_international_travel_controls : Option Int
  h6_facial_coverings : Option Int
deriving DecidableEq, Repr

/-! ## Policy event derivation (import_covid_data.py lines 271–320)

The nested closure `diff(label, a, b, float_threshold)` appends
`f"{label}: {a} â†’ {b}"` to `changes` — note that the separator in the
source file is literally the mojibake byte sequence `"â†’"` (the file holds
the double-encoded arrow), and that the values are rendered with plain
`str()`, not with any decimal formatting.  We reimplement the closure as a
pure function returning `Option String` (clause or no clause), with
`diffChanges` collecting the six clauses in source order. -/

def clauseSep : String := " â†’ "

def mkClause (label a b : String) : String := label ++ ": " ++ a ++ clauseSep ++ b

/-- The `diff` closure for the float-valued stringency field.  A zero
threshold is falsy in Python, so the threshold test only runs for
`thr ≠ 0`; the `float()` conversion inside the source's `try` never raises
on float inputs, so that branch is not represented. -/
def diff_float (label : String) (a b : Option ℚ) (thr : ℚ) : Option String :=
  if a = b then none
  else
    match a, b with
    | some x, some y =>
      if thr ≠ 0 ∧ |qSub y x| < thr then none
      else some (mkClause label (pyFloatRepr x) (pyFloatRepr y))
    | _, _ => some (mkClause label (pyOptFloatRepr a) (pyOptFloatRepr b))

/-- The `diff` closure for the int-valued ordinal fields (no threshold). -/
def diff_int (label : String) (a b : Option Int) : Option String :=
  if a = b then none
  else some (mkClause label (pyOptIntRepr a) (pyOptIntRepr b))

/-- The stringency clause of a snapshot pair (threshold 2.0). -/
def stringencyClause (prev p : PolicyRec) : Option String :=
  diff_float "Stringency" prev.stringency_index p.stringency_index 2

/-- The six optional clauses in the order the source computes them. -/
def diffChangesOpt (prev p : PolicyRec) : List (Option String) :=
  [ stringencyClause prev p,
    diff_int "School closing" prev.c1_school_closing p.c1_school_closing,
    diff_int "Workplace closing" prev.c2_workplace_closing p.c2_workplace_closing,
    diff_int "Stay-at-home" prev.c6_stay_at_home p.c6_stay_at_home,
    diff_int "Intl travel" prev.c8_international_travel_controls p.c8_international_travel_controls,
    diff_int "Face coverings" prev.h6_facial_coverings p.h6_facial_coverings ]

/-- The `changes` list accumulated by the six `diff` calls. -/
def diffChanges (prev p : PolicyRec) : List String :=
  (diffChangesOpt prev p).filterMap id

/-- Event text: first three clauses joined by `"; "`, plus the overflow
suffix `" (+{n} more)"` when more than three clauses exist. -/
def eventText (changes : List String) : String :=
  String.intercalate "; " (changes.take 3)
    ++ (if changes.length > 3 then " (+" ++ toString (changes.length - 3) ++ " more)" else "")

/-- Inner loop of `generate_policy_events`: walk the date-ordered policy
rows, diff each row against its predecessor, and emit one `(date, text)`
event per row with a nonempty change list. -/
def genEventsLoop : Nat × PolicyRec → List (Nat × PolicyRec) → List (Nat × String)
  | _, [] => []
  | prev, p :: rest =>
    let changes := diffChanges prev.2 p.2
    (if changes ≠ [] then [(p.1, eventText changes)] else []) ++ genEventsLoop p rest

/-- All policy events derived from one country's date-ordered policy rows
(the first row has no predecessor and yields no event). -/
def generateEventsFor : List (Nat × PolicyRec) → List (Nat × String)
  | [] => []
  | p :: rest => genEventsLoop p rest

/-! ## Highlight engine and timeseries assembly (views.py)

`api_timeseries` reads one country's date-ordered `DailyMetric`,
`PolicyDaily` and `PolicyEvent` rows and assembles date-aligned arrays,
event cards and highlights.  We embed it as a pure function from the three
row lists (as the ORM queries return them: ordered by date) to a response
record.  The constant `meta`/`disclaimer` payload carries no claim content
and is omitted from the record. -/

structure Highlight where
  date : Nat
  type : String
  title : String
  details : List String
  severity : Nat
deriving DecidableEq, Repr

structure ApiResponse where
  dates : List Nat
  cases : List (Option ℚ)
  deaths : List (Option ℚ)
  cases_pm : List (Option ℚ)
  deaths_pm : List (Option ℚ)
  stringency : List (Option ℚ)
  school : List (Option Int)
  work : List (Option Int)
  stayhome : List (Option Int)
  travel : List (Option Int)
  masks : List (Option Int)
  vax_total_ph : List (Option ℚ)
  vax_one : List (Option ℚ)
  vax_full : List (Option ℚ)
  vax_daily_pm : List (Option ℚ)
  event_cards : List (Nat × List String)
  highlights : List Highlight
deriving DecidableEq, Repr

/-- `POLICY_LEVELS[key][val]` (views.py lines 24–57). -/
def policyLevels (key : String) (val : Int) : Option String :=
  if key = "c1_school_closing" then
    match val with
    | 0 => some "No measures"
    | 1 => some "Recommend closing / altered operations"
    | 2 => some "Require closing some levels"
    | 3 => some "Require closing all levels"
    | _ => none
  else if key = "c2_workplace_closing" then
    match val with
    | 0 => some "No measures"
    | 1 => some "Recommend closing / work from home"
    | 2 => some "Require closing for some sectors/categories"
    | 3 => some "Require closing for all-but-essential workplaces"
    | _ => none
  else if key = "c6_stay_at_home" then
    match val with
    | 0 => some "No measures"
    | 1 => some "Recommend staying at home"
    | 2 => some "Require staying at home with exceptions"
    | 3 => some "Require staying at home with minimal exceptions"
    | _ => none
  else if key = "c8_international_travel_controls" then
    match val with
    | 0 => some "No restrictions"
    | 1 => some "Screening arrivals"
    | 2 => some "Quarantine arrivals from high-risk regions"
    | 3 => some "Ban arrivals from some regions"
    | 4 => some "Ban on all regions / total border closure"
    | _ => none
  else if key = "h6_facial_coverings" then
    match val with
    | 0 => some "No policy"
    | 1 => some "Recommended"
    | 2 => some "Required in some places/shared spaces"
    | 3 => some "Required in all public/shared spaces"
    | 4 => some "Required outside the home at all times (rare)"
    | _ => none
  else none

/-- Whether `POLICY_LEVELS` has an entry for the key. -/
def policyLevelsKnown (key : String) : Bool :=
  key = "c1_school_closing" ∨ key = "c2_workplace_closing" ∨ key = "c6_stay_at_home"
    ∨ key = "c8_international_travel_controls" ∨ key = "h6_facial_coverings"

/-- `POLICY_LABELS[key]` (views.py lines 59–66). -/
def policyLabel (key : String) : String :=
  if key = "stringency_index" then "Stringency (0–100)"
  else if key = "c1_school_closing" then "School closing (C1)"
  else if key = "c2_workplace_closing" then "Workplace closing (C2)"
  else if key = "c6_stay_at_home" then "Stay-at-home (C6)"
  else if key = "c8_international_travel_controls" then "International travel controls (C8)"
  else if key = "h6_facial_coverings" then "Face coverings (H6)"
  else ""

/-- `policy_level_text` (views.py lines 173–179). -/
def policyLevelText (key : String) (val : Option Int) : String :=
  match val with
  | none => "—"
  | some v =>
    if policyLevelsKnown key then
      toString v ++ " (" ++ ((policyLevels key v).getD "Level") ++ ")"
    else toString v

/-- `_safe_ratio` (views.py lines 74–79). -/
def safe_ratio (cur prev : Option ℚ) : Option ℚ :=
  match cur, prev with
  | some c, some p => if p ≤ 0 then none else some (qDiv c p)
  | _, _ => none

/-- One ordinal-indicator delta line of the policy-highlight detector. -/
def ordDelta (key : String) (a b : Option Int) : List String :=
  if a ≠ b ∧ (a ≠ none ∨ b ≠ none) then
    [policyLabel key ++ ": " ++ policyLevelText key a ++ " → " ++ policyLevelText key b]
  else []

/-- Python `"Stringency" in x and "Δ" in x` (severity test). -/
def mentionsStringencyDelta (x : String) : Bool :=
  listIsSub "Stringency".data x.data && listIsSub "Δ".data x.data

/-- The policy-highlight emitted (as a singleton or empty list) for one
date with policy snapshot `p` and predecessor snapshot `prevP`
(views.py lines 189–213). -/
def policyHighlightAt (prevP p : PolicyRec) (d : Nat) : List Highlight :=
  let sDelta : List String :=
    match prevP.stringency_index, p.stringency_index with
    | some sp, some sc =>
      if 10 ≤ |qSub sc sp| then
        [policyLabel "stringency_index" ++ ": " ++ fmt1 sp ++ " → " ++ fmt1 sc
          ++ " (Δ " ++ fmt1Signed (qSub sc sp) ++ ")"]
      else []
    | _, _ => []
  let deltas := sDelta
    ++ ordDelta "c1_school_closing" prevP.c1_school_closing p.c1_school_closing
    ++ ordDelta "c2_workplace_closing" prevP.c2_workplace_closing p.c2_workplace_closing
    ++ ordDelta "c6_stay_at_home" prevP.c6_stay_at_home p.c6_stay_at_home
    ++ ordDelta "c8_international_travel_controls" prevP.c8_international_travel_controls p.c8_international_travel_controls
    ++ ordDelta "h6_facial_coverings" prevP.h6_facial_coverings p.h6_facial_coverings
  if deltas ≠ [] then
    [{ date := d, type := "policy", title := "Major policy change",
       details := deltas.take 6,
       severity := if deltas.any mentionsStringencyDelta then 2 else 1 }]
  else []

/-- The policy-highlight loop (views.py lines 182–215): walks the metric
date axis, looks each date up in the policy map, and resets the
predecessor to `None` on a date with no policy row. -/
def policyHighlights (polAt : Nat → Option PolicyRec) :
    List Nat → Option PolicyRec → List Highlight
  | [], _ => []
  | d :: rest, prevPol =>
    match polAt d with
    | none => policyHighlights polAt rest none
    | some p =>
      (match prevPol with
       | none => []
       | some pv => policyHighlightAt pv p d) ++ policyHighlights polAt rest (some p)

def growthDetail (r : ℚ) : String :=
  "7-day avg increased ~" ++ fmt0 (qMul (qSub r 1) 100) ++ "% vs 7 days earlier."

def mkGrowth (d : Nat) (ty title : String) (r : ℚ) (sev : Nat) : Highlight :=
  { date := d, type := ty, title := title, details := [growthDetail r], severity := sev }

/-- One arm of the growth detector (the cases and deaths stanzas of
views.py lines 226–252 differ only in series, floor, labels and
severity): require a safe ratio ≥ 1.5 and a present current value at or
above the series floor. -/
def growthBranch (cur prev : Option ℚ) (floor : ℚ) (d : Nat) (ty title : String)
    (sev : Nat) : List Highlight :=
  match safe_ratio cur prev, cur with
  | some rc, some c =>
    if mkRat 3 2 ≤ rc ∧ floor ≤ c then [mkGrowth d ty title rc sev] else []
  | _, _ => []

/-- Growth highlights for one index `i` (views.py lines 221–252): skip
`i < 7`; compare the per-million value (falling back to the raw value)
at `i` against the one at `i - 7`; require ratio ≥ 1.5 and a current
value ≥ 5 (cases) resp. ≥ 0.2 (deaths). -/
def growthAt (dates : List Nat) (casesPm cases deathsPm deaths : List (Option ℚ))
    (i : Nat) : List Highlight :=
  if i < 7 then []
  else
    let d := dates.getD i 0
    growthBranch ((casesPm.getD i none).orElse (fun _ => cases.getD i none))
        ((casesPm.getD (i - 7) none).orElse (fun _ => cases.getD (i - 7) none))
        5 d "cases" "Rapid growth in cases" 2
      ++ growthBranch ((deathsPm.getD i none).orElse (fun _ => deaths.getD i none))
        ((deathsPm.getD (i - 7) none).orElse (fun _ => deaths.getD (i - 7) none))
        (mkRat 1 5) d "deaths" "Rapid growth in deaths" 3

/-- All growth highlights, in loop order. -/
def growthHighlights (dates : List Nat) (casesPm cases deathsPm deaths : List (Option ℚ)) :
    List Highlight :=
  (List.range dates.length).flatMap (growthAt dates casesPm cases deathsPm deaths)

/-- Vaccination milestone thresholds (views.py line 254). -/
def vaxThresholds : List Int := [10, 50, 70]

def mkVax (d : Nat) (t : Int) : Highlight :=
  { date := d, type := "vax", title := "Vaccination milestone",
    details := ["Fully vaccinated reached " ++ toString t ++ "% (per 100 people)."],
    severity := 1 }

/-- Milestone loop body (views.py lines 256–272): skip absent values; the
first non-absent value only initialises `prev_v`; afterwards, every
threshold `t` with `prev_v < t ≤ v` fires, and `prev_v` becomes `v`. -/
def vaxLoop (prev : Option ℚ) : List (Nat × Option ℚ) → List Highlight
  | [] => []
  | (_, none) :: rest => vaxLoop prev rest
  | (d, some v) :: rest =>
    match prev with
    | none => vaxLoop (some v) rest
    | some pv =>
      (vaxThresholds.filter (fun (t : Int) => decide (pv < (t : ℚ) ∧ (t : ℚ) ≤ v))).map (mkVax d)
        ++ vaxLoop (some v) rest

/-- The milestone detector over the date axis and the fully-vaccinated
series. -/
def vaxHighlights (dates : List Nat) (vaxFull : List (Option ℚ)) : List Highlight :=
  vaxLoop none (dates.zip vaxFull)

def hlKey (h : Highlight) : Nat × String × String := (h.date, h.type, h.title)

/-- De-dupe by `(date, type, title)`, first occurrence wins
(views.py lines 274–282). -/
def dedupHighlights (seen : List (Nat × String × String)) :
    List Highlight → List Highlight
  | [] => []
  | h :: rest =>
    if hlKey h ∈ seen then dedupHighlights seen rest
    else h :: dedupHighlights (hlKey h :: seen) rest

/-- Python `sorted(highlights, key=lambda x: x["date"])` (stable). -/
def sortHighlights (l : List Highlight) : List Highlight :=
  stableSortBy (fun a b => a.date ≤ b.date) l

/-- The policy map `{p["date"]: p for p in policies}` (last entry wins). -/
def polMap (policies : List (Nat × PolicyRec)) (d : Nat) : Option PolicyRec :=
  ((policies.filter (fun q => q.1 = d)).getLast?).map (·.2)

/-- The event map entry for one date: the texts of that date's events in
stored order (`ev_map.setdefault(d, []).append(...)`). -/
def evTexts (events : List (Nat × String)) (d : Nat) : List String :=
  (events.filter (fun e => e.1 = d)).map (·.2)

/-- `api_timeseries` (views.py lines 82–314) as a pure function of one
country's date-ordered metric rows, policy rows and events. -/
def apiTimeseries (metrics : List (Nat × MetricRec)) (policies : List (Nat × PolicyRec))
    (events : List (Nat × String)) : ApiResponse :=
  let dates := metrics.map (·.1)
  let cases := metrics.map (·.2.new_cases_smoothed)
  let deaths := metrics.map (·.2.new_deaths_smoothed)
  let casesPm := metrics.map (·.2.cases_per_million)
  let deathsPm := metrics.map (·.2.deaths_per_million)
  let vaxTotalPh := metrics.map (·.2.total_vaccinations_per_hundred)
  let vaxOne := metrics.map (·.2.people_vaccinated_per_hundred)
  let vaxFull := metrics.map (·.2.people_fully_vaccinated_per_hundred)
  let vaxDailyPm := metrics.map (·.2.new_vaccinations_smoothed_per_million)
  let pm := polMap policies
  let highlights :=
    policyHighlights pm dates none
      ++ growthHighlights dates casesPm cases deathsPm deaths
      ++ vaxHighlights dates vaxFull
  { dates := dates
    cases := cases
    deaths := deaths
    cases_pm := casesPm
    deaths_pm := deathsPm
    stringency := dates.map (fun d => (pm d).bind (·.stringency_index))
    school := dates.map (fun d => (pm d).bind (·.c1_school_closing))
    work := dates.map (fun d => (pm d).bind (·.c2_workplace_closing))
    stayhome := dates.map (fun d => (pm d).bind (·.c6_stay_at_home))
    travel := dates.map (fun d => (pm d).bind (·.c8_international_travel_controls))
    masks := dates.map (fun d => (pm d).bind (·.h6_facial_coverings))
    vax_total_ph := vaxTotalPh
    vax_one := vaxOne
    vax_full := vaxFull
    vax_daily_pm := vaxDailyPm
    event_cards := dates.filterMap (fun d =>
      if evTexts events d ≠ [] then some (d, evTexts events d) else none)
    highlights := dedupHighlights [] (sortHighlights highlights) }

/-! ## Keyed record store

The persistence engine is a keyed record store; `update_or_create` under
the `(country, date)` unique constraint is replace-in-place-or-append on
an association list. -/

def upsertA {κ β : Type} [DecidableEq κ] (k : κ) (v : β) : List (κ × β) → List (κ × β)
  | [] => [(k, v)]
  | (k', v') :: rest => if k' = k then (k, v) :: rest else (k', v') :: upsertA k v rest

def lookupA {κ β : Type} [DecidableEq κ] (k : κ) : List (κ × β) → Option β
  | [] => none
  | (k', v') :: rest => if k' = k then some v' else lookupA k rest

abbrev CTable := List (String × CountryRec)
abbrev SKey := String × Nat
abbrev MTable := List (SKey × MetricRec)
abbrev PTable := List (SKey × PolicyRec)
abbrev ETable := List (String × List (Nat × String))

/-- The stored state: one table per model; `PolicyEvent` rows are grouped
per country (the only way the pipeline ever reads or rewrites them). -/
structure DB where
  countries : CTable
  metrics : MTable
  policies : PTable
  events : ETable
deriving DecidableEq, Repr

/-! ## Feed rows

Numeric cells are pre-coerced (`_to_float`/`_to_int` map empty or
unparsable cells to `None` and never raise); the date cell stays raw.  For
the OxCGRT feed the tolerant candidate-key resolution (`CountryCode` /
`country_code` / `ISO3`, the multiple indicator spellings) selects the
first present non-empty cell; the row is modelled after that selection. -/

structure OwidRow where
  iso_code : Option String
  location : Option String
  population : Option ℚ
  date : Option String
  new_cases_smoothed : Option ℚ
  new_deaths_smoothed : Option ℚ
  total_cases : Option ℚ
  total_deaths : Option ℚ
  new_cases_smoothed_per_million : Option ℚ
  new_deaths_smoothed_per_million : Option ℚ
  total_vaccinations_per_hundred : Option ℚ
  people_fully_vaccinated_per_hundred : Option ℚ
deriving DecidableEq, Repr

structure OxRow where
  countryCode : Option String
  countryName : Option String
  date : Option String
  stringency_index : Option ℚ
  c1_school_closing : Option Int
  c2_workplace_closing : Option Int
  c6_stay_at_home : Option Int
  c8_international_travel_controls : Option Int
  h6_facial_coverings : Option Int
deriving DecidableEq, Repr

/-! ## Country resolution (import_covid_data.py lines 178–187, 236–239) -/

/-- OWID-pass country resolution: `get_or_create` by code (creation
defaults `name: name or iso`), overwrite the name when a truthy incoming
name differs, overwrite the population when the incoming population is
truthy (non-null, non-zero) and the stored one is falsy or differs.  The
boolean result is the `changed` flag: `country.save()` runs iff it is
`true`. -/
def resolveCountry (stored : Option CountryRec) (iso : String) (name : Option String)
    (pop : Option ℚ) : CountryRec × Bool :=
  let c0 : CountryRec := match stored with
    | some c => c
    | none => ⟨if strTruthy name then name.getD "" else iso, none⟩
  let nameChange : Bool := strTruthy name && c0.name ≠ name.getD ""
  let c1 : CountryRec := if nameChange then { c0 with name := name.getD "" } else c0
  let popChange : Bool := popTruthy pop && (!popTruthy c1.population || c1.population ≠ pop)
  let c2 : CountryRec := if popChange then { c1 with population := pop } else c1
  (c2, nameChange || popChange)

/-- OxCGRT-pass country resolution: `get_or_create` by code (creation
default `name: name`), overwrite the name when it differs (the caller
guarantees `name` nonempty); population untouched. -/
def resolveCountryOx (stored : Option CountryRec) (name : String) : CountryRec :=
  let c0 := stored.getD ⟨name, none⟩
  if name ≠ "" ∧ c0.name ≠ name then { c0 with name := name } else c0

/-! ## OWID import (import_covid_data.py lines 154–210) -/

/-- The `DailyMetric.objects.update_or_create` defaults: the eight listed
fields come from the row; `people_vaccinated_per_hundred` and
`new_vaccinations_smoothed_per_million` are not in the defaults, so an
update leaves them as stored and a create leaves them null. -/
def metricFromRow (old : Option MetricRec) (r : OwidRow) : MetricRec :=
  { new_cases_smoothed := r.new_cases_smoothed
    new_deaths_smoothed := r.new_deaths_smoothed
    total_cases := r.total_cases
    total_deaths := r.total_deaths
    cases_per_million := r.new_cases_smoothed_per_million
    deaths_per_million := r.new_deaths_smoothed_per_million
    total_vaccinations_per_hundred := r.total_vaccinations_per_hundred
    people_vaccinated_per_hundred := old.bind (·.people_vaccinated_per_hundred)
    people_fully_vaccinated_per_hundred := r.people_fully_vaccinated_per_hundred
    new_vaccinations_smoothed_per_million := old.bind (·.new_vaccinations_smoothed_per_million) }

def upsertMetric (T : MTable) (k : SKey) (r : OwidRow) : MTable :=
  upsertA k (metricFromRow (lookupA k T) r) T

/-- The row's country code (`row.get("iso_code")`, `""` for a missing
cell). -/
def owidIso (r : OwidRow) : String := r.iso_code.getD ""

/-- One iteration of the OWID row loop, threading the `seen_countries`
set (an insertion-ordered duplicate-free list) and the store.  Skips
aggregate codes, applies the country cap, skips rows whose date parses to
`None`, and propagates the uncaught `ValueError` of `_parse_date`. -/
def owidStep (limit : Nat) (st : List String × DB) (r : OwidRow) :
    Except Unit (List String × DB) :=
  if owidIso r = "" || strStartsWith (owidIso r) "OWID_" then .ok st
  else if limit ≠ 0 ∧ owidIso r ∉ st.1 ∧ limit ≤ st.1.length then .ok st
  else
    match parse_date r.date with
    | .error e => .error e
    | .ok none => .ok st
    | .ok (some d) =>
      .ok (if owidIso r ∈ st.1 then st.1 else st.1 ++ [owidIso r],
        { st.2 with
            countries := upsertA (owidIso r)
              ((resolveCountry (lookupA (owidIso r) st.2.countries) (owidIso r)
                r.location r.population).1) st.2.countries
            metrics := upsertMetric st.2.metrics (owidIso r, d) r })

/-- `import_owid` (one transaction; the final `seen_countries` is only
logged). -/
def importOwid (limit : Nat) (db : DB) (rows : List OwidRow) : Except Unit DB :=
  (rows.foldlM (owidStep limit) ([], db)).map (·.2)

/-! ## OxCGRT import and event regeneration
(import_covid_data.py lines 212–320) -/

def policyFromRow (r : OxRow) : PolicyRec :=
  { stringency_index := r.stringency_index
    c1_school_closing := r.c1_school_closing
    c2_workplace_closing := r.c2_workplace_closing
    c6_stay_at_home := r.c6_stay_at_home
    c8_international_travel_controls := r.c8_international_travel_controls
    h6_facial_coverings := r.h6_facial_coverings }

/-- The row's stripped country name. -/
def oxName (r : OxRow) : String := pyStrip (r.countryName.getD "")

/-- The row's resolved code: the stripped `CountryCode` cell, or the
synthesized pseudo-code `X_` + first six name characters uppercased when
that cell is empty. -/
def oxIso (r : OxRow) : String :=
  if pyStrip (r.countryCode.getD "") = ""
  then "X_" ++ strUpper (String.mk ((oxName r).data.take 6))
  else pyStrip (r.countryCode.getD "")

/-- One iteration of the OxCGRT row loop. -/
def oxStep (limit : Nat) (st : List String × DB) (r : OxRow) :
    Except Unit (List String × DB) :=
  if oxName r = "" then .ok st
  else if limit ≠ 0 ∧ oxIso r ∉ st.1 ∧ limit ≤ st.1.length then .ok st
  else
    match parse_date r.date with
    | .error e => .error e
    | .ok none => .ok st
    | .ok (some d) =>
      .ok (if oxIso r ∈ st.1 then st.1 else st.1 ++ [oxIso r],
        { st.2 with
            countries := upsertA (oxIso r)
              (resolveCountryOx (lookupA (oxIso r) st.2.countries) (oxName r)) st.2.countries
            policies := upsertA (oxIso r, d) (policyFromRow r) st.2.policies })

/-- `PolicyDaily.objects.filter(country=...).order_by("date")`. -/
def policyRowsOf (T : PTable) (iso : String) : List (Nat × PolicyRec) :=
  stableSortBy (fun a b => a.1 ≤ b.1)
    ((T.filter (fun e => e.1.1 = iso)).map (fun e => (e.1.2, e.2)))

/-- `generate_policy_events` body for one touched code: skip when the
country does not exist, otherwise delete that country's events and
regenerate them from its date-ordered policy rows. -/
def regenStep (db : DB) (iso : String) : DB :=
  match lookupA iso db.countries with
  | none => db
  | some _ =>
    { db with events := upsertA iso (generateEventsFor (policyRowsOf db.policies iso)) db.events }

def generatePolicyEvents (db : DB) (seen : List String) : DB :=
  seen.foldl regenStep db

/-- `import_oxcgrt` followed by `generate_policy_events(seen_countries)`. -/
def importOxcgrt (limit : Nat) (db : DB) (rows : List OxRow) : Except Unit DB := do
  let st ← rows.foldlM (oxStep limit) ([], db)
  pure (generatePolicyEvents st.2 st.1)

/-- One full run of the batch command (`--all`): OWID pass then OxCGRT
pass with event regeneration. -/
def runImport (limit : Nat) (db : DB) (orows : List OwidRow) (prows : List OxRow) :
    Except Unit DB := do
  let db1 ← importOwid limit db orows
  importOxcgrt limit db1 prows

/-! ## Shared helper inputs and basic store lemmas -/

/-- A metrics row with only identity, date and population set. -/
def owidRowOf (iso name date : Option String) : OwidRow :=
  ⟨iso, name, none, date, none, none, none, none, none, none, none, none⟩

/-- A policy row with only identity, date and the five ordinals set. -/
def oxRowOf (code name date : Option String) (c1 c2 c6 c8 h6 : Option Int) : OxRow :=
  ⟨code, name, date, none, c1, c2, c6, c8, h6⟩

def emptyDB : DB := ⟨[], [], [], []⟩

theorem lookupA_upsertA_self {κ β : Type} [DecidableEq κ] (k : κ) (v : β)
    (T : List (κ × β)) : lookupA k (upsertA k v T) = some v := by
  induction T with
  | nil => simp [upsertA, lookupA]
  | cons hd tl ih =>
    by_cases h : hd.1 = k
    · simp [upsertA, h, lookupA]
    · simpa [upsertA, h, lookupA] using ih

theorem lookupA_upsertA_ne {κ β : Type} [DecidableEq κ] (k k' : κ) (v : β)
    (T : List (κ × β)) (h : k' ≠ k) : lookupA k' (upsertA k v T) = lookupA k' T := by
  induction T with
  | nil => simp [upsertA, lookupA, Ne.symm h]
  | cons hd tl ih =>
    by_cases hk : hd.1 = k
    · simp [upsertA, hk, lookupA, h, Ne.symm h]
    · simp only [upsertA, hk, if_false, lookupA]
      by_cases hk' : hd.1 = k' <;> simp [hk', ih]

/-! ## C3 -/

/-- C3: the claim says a date value unparsable in either accepted format
never raises and only causes the row to be skipped.  The code agrees for a
missing/empty date and for strings with no hyphen and length ≠ 8, but for a
hyphen-containing malformed value (`"2020-13-01"`) `datetime.strptime`
raises `ValueError`, which no caller catches: the whole batch aborts.
This theorem evaluates the model at the failing input: the parser raises,
and the one-row import fails instead of skipping the row. -/
theorem c3_malformed_date_aborts_batch :
    parse_date (some "2020-13-01") = .error ()
    ∧ parse_date none = .ok none
    ∧ parse_date (some "nodate") = .ok none
    ∧ importOwid 0 emptyDB
        [owidRowOf (some "AAA") (some "Aaaland") (some "2020-01-05"),
         owidRowOf (some "BBB") (some "Bbbland") (some "2020-13-01"),
         owidRowOf (some "CCC") (some "Cccland") (some "2020-01-06")]
        = .error () := by decide

/-! ## C4 -/

/-- C4: with both consecutive stringency values non-null, the deriver
produces a stringency change clause iff the absolute delta is ≥ 2.0, and
any produced stringency clause lands in the event's change list. -/
theorem c4_stringency_clause_iff_threshold (prev p : PolicyRec) (a b : ℚ)
    (ha : prev.stringency_index = some a) (hb : p.stringency_index = some b) :
    ((stringencyClause prev p).isSome = true ↔ 2 ≤ |b - a|)
    ∧ ∀ c : String, stringencyClause prev p = some c → c ∈ diffChanges prev p := by
  constructor
  · by_cases hab : a = b
    · subst hab
      have h0 : ¬ (2 : ℚ) ≤ |a - a| := by simp
      simp [stringencyClause, diff_float, ha, hb, h0]
    · by_cases hlt : |b - a| < 2
      · have h0 : ¬ (2 : ℚ) ≤ |b - a| := by linarith
        simp [stringencyClause, diff_float, ha, hb, hab, hlt, h0, qSub_eq]
      · have h2 : (2 : ℚ) ≤ |b - a| := not_lt.mp hlt
        simp [stringencyClause, diff_float, ha, hb, hab, hlt, h2, qSub_eq]
  · intro c hc
    simp [diffChanges, diffChangesOpt, List.filterMap, hc]

/-- Witness for C4 at stringency values 30 and 32 (delta exactly 2.0). -/
theorem c4_witness :
    (((stringencyClause ⟨some 30, none, none, none, none, none⟩
        ⟨some 32, none, none, none, none, none⟩).isSome = true ↔ 2 ≤ |(32 : ℚ) - 30|)
    ∧ ∀ c : String, stringencyClause ⟨some 30, none, none, none, none, none⟩
        ⟨some 32, none, none, none, none, none⟩ = some c
        → c ∈ diffChanges ⟨some 30, none, none, none, none, none⟩
            ⟨some 32, none, none, none, none, none⟩) :=
  c4_stringency_clause_iff_threshold _ _ 30 32 rfl rfl

/-! ## C7 -/

/-- C7: the upsert keyed by `(country, date)` is a full replace for every
field the importer manages: re-importing the key leaves exactly the new
row's field values (absent fields become null), for the metric table
(starting from a key the importer created) and unconditionally for the
policy table. -/
theorem c7_upsert_full_replace (T : MTable) (P : PTable) (iso : String) (d : Nat)
    (r1 r2 : OwidRow) (s1 s2 : OxRow) (hT : lookupA (iso, d) T = none) :
    lookupA (iso, d) (upsertMetric (upsertMetric T (iso, d) r1) (iso, d) r2)
        = some (metricFromRow none r2)
    ∧ lookupA (iso, d) (upsertA (iso, d) (policyFromRow s2)
        (upsertA (iso, d) (policyFromRow s1) P)) = some (policyFromRow s2) := by
  constructor
  · have h1 : lookupA (iso, d) (upsertA (iso, d) (metricFromRow (lookupA (iso, d) T) r1) T)
        = some (metricFromRow none r1) := by
      rw [hT]
      exact lookupA_upsertA_self _ _ _
    have h2 : metricFromRow (some (metricFromRow none r1)) r2 = metricFromRow none r2 := by
      simp [metricFromRow]
    simp only [upsertMetric, h1, h2]
    exact lookupA_upsertA_self _ _ _
  · exact lookupA_upsertA_self _ _ _

/-- Witness for C7: a first import stores cases and deaths, the re-import
populates only deaths, and the stored cases value is nulled out. -/
theorem c7_witness :
    lookupA ("AAA", 20200105)
      (upsertMetric
        (upsertMetric [] ("AAA", 20200105)
          { owidRowOf (some "AAA") (some "Aaaland") (some "2020-01-05") with
              new_cases_smoothed := some 7
              new_deaths_smoothed := some 3 })
        ("AAA", 20200105)
        { owidRowOf (some "AAA") (some "Aaaland") (some "2020-01-05") with
            new_deaths_smoothed := some 4 })
      = some (metricFromRow none
          { owidRowOf (some "AAA") (some "Aaaland") (some "2020-01-05") with
              new_deaths_smoothed := some 4 })
    ∧ lookupA ("AAA", 20200105)
        (upsertA ("AAA", 20200105)
          (policyFromRow (oxRowOf (some "AAA") (some "Aaaland") (some "20200105")
            none none none none none))
          (upsertA ("AAA", 20200105)
            (policyFromRow (oxRowOf (some "AAA") (some "Aaaland") (some "20200105")
              (some 2) (some 1) none none none)) []))
        = some (policyFromRow (oxRowOf (some "AAA") (some "Aaaland") (some "20200105")
            none none none none none)) :=
  (c7_upsert_full_replace [] [] "AAA" 20200105 _ _ _ _ rfl)

/-! ## C9 -/

/-- C9 counterexample: the claim says an incoming population that is
non-null and differs from the stored value — "including an incoming value
of 0" — overwrites the stored population.  In the code the check is
`if pop and ...`, and `0.0` is falsy in Python, so an incoming population
of exactly 0 never overwrites: here the stored value 5 survives and no
save happens. -/
theorem c9_counterexample :
    (resolveCountry (some ⟨"Fooland", some 5⟩) "FOO" (some "Fooland") (some 0)).1.population
        = some 5
    ∧ (resolveCountry (some ⟨"Fooland", some 5⟩) "FOO" (some "Fooland") (some 0)).2 = false := by
  decide

/-- C9 amended: for an existing country, the resolver overwrites the name
exactly when the incoming name is truthy (then the final name is the
incoming one, whether or not it differed); it overwrites the population
exactly when the incoming population is truthy — non-null and non-zero —
(then the final population is the incoming one); and it saves iff a field
actually changed. -/
theorem c9_resolve_characterization (c : CountryRec) (iso : String) (name : Option String)
    (pop : Option ℚ) :
    ((resolveCountry (some c) iso name pop).2 = true
        ↔ (resolveCountry (some c) iso name pop).1 ≠ c)
    ∧ (popTruthy pop = true → (resolveCountry (some c) iso name pop).1.population = pop)
    ∧ (popTruthy pop = false → (resolveCountry (some c) iso name pop).1.population
        = c.population)
    ∧ (strTruthy name = true → (resolveCountry (some c) iso name pop).1.name = name.getD "")
    ∧ (strTruthy name = false → (resolveCountry (some c) iso name pop).1.name = c.name) := by
  obtain ⟨cn, cp⟩ := c
  by_cases hn : strTruthy name = true
  · by_cases hnd : cn = name.getD ""
    · subst hnd
      by_cases hp : popTruthy pop = true
      · by_cases hpe : cp = pop
        · subst hpe
          refine ⟨?_, ?_, ?_, ?_, ?_⟩ <;>
            simp [resolveCountry, hn, hp, CountryRec.mk.injEq]
        · refine ⟨?_, ?_, ?_, ?_, ?_⟩ <;>
            simp [resolveCountry, hn, hp, hpe, Ne.symm hpe, CountryRec.mk.injEq]
      · refine ⟨?_, ?_, ?_, ?_, ?_⟩ <;>
          simp [resolveCountry, hn, hp, CountryRec.mk.injEq]
    · by_cases hp : popTruthy pop = true
      · by_cases hpe : cp = pop
        · subst hpe
          refine ⟨?_, ?_, ?_, ?_, ?_⟩ <;>
            simp [resolveCountry, hn, hnd, hp, Ne.symm hnd, CountryRec.mk.injEq]
        · refine ⟨?_, ?_, ?_, ?_, ?_⟩ <;>
            simp [resolveCountry, hn, hnd, hp, hpe, Ne.symm hnd, CountryRec.mk.injEq]
      · refine ⟨?_, ?_, ?_, ?_, ?_⟩ <;>
          simp [resolveCountry, hn, hnd, hp, Ne.symm hnd, CountryRec.mk.injEq]
  · by_cases hp : popTruthy pop = true
    · by_cases hpe : cp = pop
      · subst hpe
        refine ⟨?_, ?_, ?_, ?_, ?_⟩ <;>
          simp [resolveCountry, hn, hp, CountryRec.mk.injEq]
      · refine ⟨?_, ?_, ?_, ?_, ?_⟩ <;>
          simp [resolveCountry, hn, hp, hpe, Ne.symm hpe, CountryRec.mk.injEq]
    · refine ⟨?_, ?_, ?_, ?_, ?_⟩ <;>
        simp [resolveCountry, hn, hp, CountryRec.mk.injEq]

/-- Witness for C9 amended at a concrete existing country with a truthy
incoming name and a truthy differing population. -/
theorem c9_witness :
    (((resolveCountry (some ⟨"Old", some 1⟩) "AAA" (some "New") (some 3)).2 = true
        ↔ (resolveCountry (some ⟨"Old", some 1⟩) "AAA" (some "New") (some 3)).1
            ≠ (⟨"Old", some 1⟩ : CountryRec))
    ∧ (popTruthy (some 3) = true
        → (resolveCountry (some ⟨"Old", some 1⟩) "AAA" (some "New") (some 3)).1.population
            = some 3)
    ∧ (popTruthy (some 3) = false
        → (resolveCountry (some ⟨"Old", some 1⟩) "AAA" (some "New") (some 3)).1.population
            = (⟨"Old", some 1⟩ : CountryRec).population)
    ∧ (strTruthy (some "New") = true
        → (resolveCountry (some ⟨"Old", some 1⟩) "AAA" (some "New") (some 3)).1.name
            = (some "New").getD "")
    ∧ (strTruthy (some "New") = false
        → (resolveCountry (some ⟨"Old", some 1⟩) "AAA" (some "New") (some 3)).1.name
            = (⟨"Old", some 1⟩ : CountryRec).name)) :=
  c9_resolve_characterization ⟨"Old", some 1⟩ "AAA" (some "New") (some 3)

/-! ## C5 -/

/-- C5 counterexample: the deriver renders the stringency clause with
plain `str()` (full float repr, e.g. `30.25`), not one-decimal formatting,
and the separator in the source file is the literal mojibake byte sequence
`"â†’"`, not the arrow `"→"`.  At old = 30.25, new = 33.0 the emitted
clause is `"Stringency: 30.25 â†’ 33.0"`, which differs from the claimed
`"Stringency: 30.2 → 33.0"`. -/
theorem c5_counterexample :
    stringencyClause ⟨some (mkRat 121 4), none, none, none, none, none⟩
        ⟨some 33, none, none, none, none, none⟩
      = some "Stringency: 30.25 â†’ 33.0"
    ∧ "Stringency: 30.25 â†’ 33.0" ≠ "Stringency: 30.2 → 33.0" := by decide

/-- C5 amended: every clause — stringency included — is rendered as
`mkClause label (str old) (str new)`, i.e. `label ++ ": " ++ old ++ " â†’ "
++ new` with Python `str()` value rendering (`pyFloatRepr` /
`pyOptIntRepr`) and the mojibake arrow separator; whenever the stringency
threshold passes resp. an ordinal differs, the so-rendered clause is in
the event's change list. -/
theorem c5_clause_rendering (prev p : PolicyRec) (a b : ℚ) (o1 o2 : Option Int)
    (ha : prev.stringency_index = some a) (hb : p.stringency_index = some b)
    (hth : 2 ≤ |b - a|)
    (h1 : prev.c1_school_closing = o1) (h2 : p.c1_school_closing = o2) (hne : o1 ≠ o2) :
    mkClause "Stringency" (pyFloatRepr a) (pyFloatRepr b) ∈ diffChanges prev p
    ∧ mkClause "School closing" (pyOptIntRepr o1) (pyOptIntRepr o2) ∈ diffChanges prev p := by
  have hab : a ≠ b := by
    intro h
    rw [h] at hth
    simp at hth
    linarith
  have hsc : stringencyClause prev p
      = some (mkClause "Stringency" (pyFloatRepr a) (pyFloatRepr b)) := by
    have hq : ¬ (|qSub b a| < 2) := by
      rw [qSub_eq]
      exact not_lt.mpr hth
    simp [stringencyClause, diff_float, ha, hb, hab, hq]
  have hoc : diff_int "School closing" prev.c1_school_closing p.c1_school_closing
      = some (mkClause "School closing" (pyOptIntRepr o1) (pyOptIntRepr o2)) := by
    simp [diff_int, h1, h2, hne]
  constructor <;>
    simp [diffChanges, diffChangesOpt, hsc, hoc, List.filterMap_cons]

/-- Witness for C5 amended at old = 30.25, new = 33.0 and a school-closing
change None → 2. -/
theorem c5_witness :
    mkClause "Stringency" (pyFloatRepr (mkRat 121 4)) (pyFloatRepr 33)
        ∈ diffChanges ⟨some (mkRat 121 4), none, none, none, none, none⟩
            ⟨some 33, some 2, none, none, none, none⟩
    ∧ mkClause "School closing" (pyOptIntRepr none) (pyOptIntRepr (some 2))
        ∈ diffChanges ⟨some (mkRat 121 4), none, none, none, none, none⟩
            ⟨some 33, some 2, none, none, none, none⟩ :=
  c5_clause_rendering _ _ (mkRat 121 4) 33 none (some 2) rfl rfl
    (by rw [show (33 : ℚ) - mkRat 121 4 = qSub 33 (mkRat 121 4) from (qSub_eq ..).symm]; decide)
    rfl rfl (by decide)

/-! ## C2 -/

/-- C2 counterexample: the fully-vaccinated series 9.9, 10.1, 9.5, 10.2
(dates 0–3) makes the "10%" milestone fire twice — at date 1 and again at
date 3 after the series fell back below the threshold — and both
highlights survive dedup (their dates differ) into the returned
response. -/
theorem c2_counterexample :
    (apiTimeseries
        [(0, ⟨none, none, none, none, none, none, none, none, some (mkRat 99 10), none⟩),
         (1, ⟨none, none, none, none, none, none, none, none, some (mkRat 101 10), none⟩),
         (2, ⟨none, none, none, none, none, none, none, none, some (mkRat 95 10), none⟩),
         (3, ⟨none, none, none, none, none, none, none, none, some (mkRat 102 10), none⟩)]
        [] []).highlights
      = [mkVax 1 10, mkVax 3 10] := by decide

/-- The non-absent `(date, value)` subsequence of the zipped series. -/
def nonAbsentPairs (l : List (Nat × Option ℚ)) : List (Nat × ℚ) :=
  l.filterMap (fun p => p.2.map (fun v => (p.1, v)))

/-- Comparison definition for the amended C2, following the amended
claim's words: walking the non-absent pairs with running predecessor `pv`,
EVERY crossing `pv < t ≤ v` of a threshold fires — not only the first. -/
def specVaxCrossingsFrom (pv : ℚ) : List (Nat × ℚ) → List Highlight
  | [] => []
  | (d, v) :: rest =>
    (vaxThresholds.filter (fun t : Int => decide (pv < (t : ℚ) ∧ (t : ℚ) ≤ v))).map (mkVax d)
      ++ specVaxCrossingsFrom v rest

/-- Comparison definition for the amended C2: the first non-absent value
only seeds the predecessor and never fires. -/
def specVaxAllCrossings : List (Nat × ℚ) → List Highlight
  | [] => []
  | (_, v) :: rest => specVaxCrossingsFrom v rest

theorem vaxLoop_some_eq (pv : ℚ) (l : List (Nat × Option ℚ)) :
    vaxLoop (some pv) l = specVaxCrossingsFrom pv (nonAbsentPairs l) := by
  induction l generalizing pv with
  | nil => rfl
  | cons hd tl ih =>
    rcases hd with ⟨d, _ | v⟩
    · simpa [vaxLoop, nonAbsentPairs, List.filterMap_cons] using ih pv
    · simp only [vaxLoop, nonAbsentPairs, List.filterMap_cons, Option.map_some]
      simp only [specVaxCrossingsFrom]
      rw [ih v]
      rfl

/-- C2 amended: the milestone detector fires a highlight for every
consecutive non-absent pair that crosses a threshold from strictly below
to at-or-above — the first crossing AND every later re-crossing after a
fluctuation back below; only the very first non-absent value (which has no
predecessor) never fires. -/
theorem c2_milestones_fire_on_every_crossing (dates : List Nat)
    (vaxFull : List (Option ℚ)) :
    vaxHighlights dates vaxFull
      = specVaxAllCrossings (nonAbsentPairs (dates.zip vaxFull)) := by
  rw [vaxHighlights]
  generalize dates.zip vaxFull = l
  induction l with
  | nil => rfl
  | cons hd tl ih =>
    rcases hd with ⟨d, _ | v⟩
    · simpa [vaxLoop, nonAbsentPairs, List.filterMap_cons] using ih
    · simp only [vaxLoop, nonAbsentPairs, List.filterMap_cons, Option.map_some]
      simp only [specVaxAllCrossings]
      rw [vaxLoop_some_eq]
      rfl

/-! ## C1 -/

/-- C1 counterexample: with a cases-per-million series holding 10 at date
index 0, absent at indices 1–6 and 20 at index 7, the response contains a
"Rapid growth in cases" highlight at date 7 — index 7 < 14, with a single
non-absent value in each of the two claimed 7-day windows, contradicting
the claimed i ≥ 14 / window-mean / ≥ 5-values-per-window conditions; the
detail string reports a rounded percentage, not two window means. -/
theorem c1_counterexample :
    (apiTimeseries
        [(0, ⟨none, none, none, none, some 10, none, none, none, none, none⟩),
         (1, ⟨none, none, none, none, none, none, none, none, none, none⟩),
         (2, ⟨none, none, none, none, none, none, none, none, none, none⟩),
         (3, ⟨none, none, none, none, none, none, none, none, none, none⟩),
         (4, ⟨none, none, none, none, none, none, none, none, none, none⟩),
         (5, ⟨none, none, none, none, none, none, none, none, none, none⟩),
         (6, ⟨none, none, none, none, none, none, none, none, none, none⟩),
         (7, ⟨none, none, none, none, some 20, none, none, none, none, none⟩)]
        [] []).highlights
      = [mkGrowth 7 "cases" "Rapid growth in cases" 2 2]
    ∧ 7 < 14 := by decide

/-- The series value used by the growth detector at index `i`: the
per-million value when present, else the raw value. -/
def pmOrRaw (pm raw : List (Option ℚ)) (i : Nat) : Option ℚ :=
  (pm.getD i none).orElse (fun _ => raw.getD i none)

theorem mem_growthBranch (cur prev : Option ℚ) (floor : ℚ) (d : Nat)
    (ty title : String) (sev : Nat) (hl : Highlight) :
    hl ∈ growthBranch cur prev floor d ty title sev
      ↔ ∃ rc c, safe_ratio cur prev = some rc ∧ cur = some c
          ∧ mkRat 3 2 ≤ rc ∧ floor ≤ c ∧ hl = mkGrowth d ty title rc sev := by
  rcases cur with _ | c
  · simp [growthBranch, safe_ratio]
  · rcases hr : safe_ratio (some c) prev with _ | rc
    · simp [growthBranch, hr]
    · by_cases hcond : mkRat 3 2 ≤ rc ∧ floor ≤ c
      · obtain ⟨h1c, h2c⟩ := hcond
        simp [growthBranch, hr, h1c, h2c]
      · simp only [growthBranch, hr]
        rw [if_neg hcond]
        simp only [List.not_mem_nil, false_iff]
        rintro ⟨rc', c', hrc', hc', h32, hfl, -⟩
        injection hrc' with hrc'
        injection hc' with hc'
        subst hrc' hc'
        exact hcond ⟨h32, hfl⟩

/-- C1 amended: the growth detector emits a highlight exactly at the
indices i ≥ 7 where the single-day value (per-million when present, else
raw) at i and at i−7 yield a safe ratio ≥ 3/2 and the current value is
≥ 5 (cases) resp. ≥ 1/5 (deaths); the emitted highlight carries the
rounded percentage-increase detail, not window means. -/
theorem c1_growth_characterization (dates : List Nat)
    (casesPm cases deathsPm deaths : List (Option ℚ)) (hl : Highlight) :
    hl ∈ growthHighlights dates casesPm cases deathsPm deaths
      ↔ ∃ i, i < dates.length ∧ 7 ≤ i ∧
        ((∃ rc c, safe_ratio (pmOrRaw casesPm cases i) (pmOrRaw casesPm cases (i - 7)) = some rc
            ∧ pmOrRaw casesPm cases i = some c ∧ mkRat 3 2 ≤ rc ∧ 5 ≤ c
            ∧ hl = mkGrowth (dates.getD i 0) "cases" "Rapid growth in cases" rc 2)
        ∨ (∃ rd c, safe_ratio (pmOrRaw deathsPm deaths i) (pmOrRaw deathsPm deaths (i - 7)) = some rd
            ∧ pmOrRaw deathsPm deaths i = some c ∧ mkRat 3 2 ≤ rd ∧ mkRat 1 5 ≤ c
            ∧ hl = mkGrowth (dates.getD i 0) "deaths" "Rapid growth in deaths" rd 3)) := by
  simp only [growthHighlights, List.mem_flatMap, List.mem_range]
  refine exists_congr fun i => ?_
  constructor
  · rintro ⟨hi, hmem⟩
    by_cases h7 : i < 7
    · rw [growthAt, if_pos h7] at hmem
      simp at hmem
    · rw [growthAt, if_neg h7] at hmem
      rcases List.mem_append.mp hmem with h | h
      · exact ⟨hi, Nat.le_of_not_lt h7, Or.inl ((mem_growthBranch _ _ _ _ _ _ _ _).mp h)⟩
      · exact ⟨hi, Nat.le_of_not_lt h7, Or.inr ((mem_growthBranch _ _ _ _ _ _ _ _).mp h)⟩
  · rintro ⟨hi, h7, hbr⟩
    refine ⟨hi, ?_⟩
    rw [growthAt, if_neg (Nat.not_lt.mpr h7)]
    rcases hbr with h | h
    · exact List.mem_append.mpr (Or.inl ((mem_growthBranch _ _ _ _ _ _ _ _).mpr h))
    · exact List.mem_append.mpr (Or.inr ((mem_growthBranch _ _ _ _ _ _ _ _).mpr h))

/-! ## C6 -/

theorem genEventsLoop_append (q : Nat × PolicyRec) (xs ys : List (Nat × PolicyRec)) :
    genEventsLoop q (xs ++ ys) = genEventsLoop q xs ++ genEventsLoop (xs.getLastD q) ys := by
  induction xs generalizing q with
  | nil => simp [genEventsLoop]
  | cons hd tl ih =>
    simp only [List.cons_append, genEventsLoop, List.getLastD_cons, List.append_eq, ih hd,
      List.append_assoc]

theorem genEventsLoop_dates (q : Nat × PolicyRec) (l : List (Nat × PolicyRec))
    (e : Nat × String) (he : e ∈ genEventsLoop q l) : e.1 ∈ l.map (·.1) := by
  induction l generalizing q with
  | nil => simp [genEventsLoop] at he
  | cons hd tl ih =>
    simp only [genEventsLoop] at he
    rcases List.mem_append.mp he with h | h
    · by_cases hch : diffChanges q.2 hd.2 ≠ []
      · rw [if_pos hch] at h
        simp only [List.mem_singleton] at h
        subst h
        simp
      · rw [if_neg hch] at h
        simp at h
    · simpa using Or.inr (ih hd h)

/-- C6: when exactly five indicators change between two consecutive
snapshots of a strictly date-sorted policy history, the deriver emits
exactly one event for that date, whose text is the first three change
clauses joined by `"; "` followed by the literal suffix `" (+2 more)"`. -/
theorem c6_five_changes_one_event (l1 l2 : List (Nat × PolicyRec)) (prev p : Nat × PolicyRec)
    (hsorted : (l1 ++ prev :: p :: l2).Pairwise (fun x y => x.1 < y.1))
    (hlen : (diffChanges prev.2 p.2).length = 5) :
    (generateEventsFor (l1 ++ prev :: p :: l2)).filter (fun e => e.1 = p.1)
      = [(p.1, String.intercalate "; " ((diffChanges prev.2 p.2).take 3) ++ " (+2 more)")] := by
  have hlt1 : ∀ x ∈ l1 ++ [prev], x.1 < p.1 := by
    intro x hx
    rcases List.mem_append.mp hx with h | h
    · have := (List.pairwise_append.mp hsorted).2.2 x h p (by simp)
      exact this
    · simp only [List.mem_singleton] at h
      subst h
      exact (List.pairwise_cons.mp ((List.pairwise_append.mp hsorted).2.1)).1 p (by simp)
  have hlt2 : ∀ y ∈ l2, p.1 < y.1 := by
    intro y hy
    have h2 := (List.pairwise_append.mp hsorted).2.1
    exact (List.pairwise_cons.mp (List.pairwise_cons.mp h2).2).1 y hy
  have hch : diffChanges prev.2 p.2 ≠ [] := by
    intro h
    rw [h] at hlen
    simp at hlen
  have htext : eventText (diffChanges prev.2 p.2)
      = String.intercalate "; " ((diffChanges prev.2 p.2).take 3) ++ " (+2 more)" := by
    rw [eventText, hlen]
    norm_num
    exact congrArg (fun z => String.intercalate "; "
      (List.take 3 (diffChanges prev.2 p.2)) ++ z) (by decide)
  have hpair : genEventsLoop prev (p :: l2)
      = (p.1, eventText (diffChanges prev.2 p.2)) :: genEventsLoop p l2 := by
    simp [genEventsLoop, hch]
  have hfilter2 : (genEventsLoop p l2).filter (fun e => e.1 = p.1) = [] := by
    rw [List.filter_eq_nil_iff]
    intro e he
    obtain ⟨y, hy, hye⟩ := List.mem_map.mp (genEventsLoop_dates p l2 e he)
    have hgt := hlt2 y hy
    simp only [decide_eq_true_eq]
    omega
  rcases l1 with _ | ⟨x, l1x⟩
  · rw [List.nil_append]
    show (genEventsLoop prev (p :: l2)).filter (fun e => e.1 = p.1) = _
    rw [hpair, List.filter_cons, if_pos (by simp), hfilter2, htext]
  · have hfilter1 : (genEventsLoop x (l1x ++ [prev])).filter (fun e => e.1 = p.1) = [] := by
      rw [List.filter_eq_nil_iff]
      intro e he
      obtain ⟨y, hy, hye⟩ := List.mem_map.mp (genEventsLoop_dates x (l1x ++ [prev]) e he)
      have hylt : y.1 < p.1 := hlt1 y (by
        rcases List.mem_append.mp hy with h | h
        · exact List.mem_append.mpr (Or.inl (List.mem_cons_of_mem x h))
        · exact List.mem_append.mpr (Or.inr h))
      simp only [decide_eq_true_eq]
      omega
    have hsplit : generateEventsFor ((x :: l1x) ++ prev :: p :: l2)
        = genEventsLoop x (l1x ++ [prev]) ++ genEventsLoop prev (p :: l2) := by
      show genEventsLoop x (l1x ++ prev :: p :: l2) = _
      have hre : l1x ++ prev :: p :: l2 = (l1x ++ [prev]) ++ (p :: l2) := by simp
      rw [hre, genEventsLoop_append, List.getLastD_concat]
    rw [hsplit, List.filter_append, hfilter1, List.nil_append, hpair, List.filter_cons,
      if_pos (by simp), hfilter2, htext]

/-- Witness for C6: two policy rows at dates 1 and 2 whose five ordinal
indicators all change (stringency unchanged): one event at date 2 with
three clauses and the `" (+2 more)"` suffix. -/
theorem c6_witness :
    (generateEventsFor ([] ++ (1, ⟨some 20, some 0, some 0, some 0, some 0, some 0⟩)
        :: (2, ⟨some 20, some 1, some 1, some 1, some 1, some 1⟩) :: [])).filter
        (fun e => e.1 = (2, (⟨some 20, some 1, some 1, some 1, some 1, some 1⟩ : PolicyRec)).1)
      = [((2, (⟨some 20, some 1, some 1, some 1, some 1, some 1⟩ : PolicyRec)).1,
          String.intercalate "; "
            ((diffChanges (⟨some 20, some 0, some 0, some 0, some 0, some 0⟩ : PolicyRec)
              ⟨some 20, some 1, some 1, some 1, some 1, some 1⟩).take 3) ++ " (+2 more)")] :=
  c6_five_changes_one_event [] [] (1, ⟨some 20, some 0, some 0, some 0, some 0, some 0⟩)
    (2, ⟨some 20, some 1, some 1, some 1, some 1, some 1⟩) (by decide) (by decide)

/-! ## C10 -/

theorem polMap_filter_mem (ds : List Nat) (policies : List (Nat × PolicyRec)) (d : Nat)
    (hd : d ∈ ds) :
    polMap (policies.filter (fun q => q.1 ∈ ds)) d = polMap policies d := by
  unfold polMap
  have heq : (policies.filter (fun q => q.1 ∈ ds)).filter (fun q => q.1 = d)
      = policies.filter (fun q => q.1 = d) := by
    rw [List.filter_filter]
    apply List.filter_congr
    intro a _
    by_cases h : a.1 = d
    · simp [h, hd]
    · simp [h]
  rw [heq]

theorem evTexts_filter_mem (ds : List Nat) (events : List (Nat × String)) (d : Nat)
    (hd : d ∈ ds) :
    evTexts (events.filter (fun e => e.1 ∈ ds)) d = evTexts events d := by
  unfold evTexts
  have heq : (events.filter (fun e => e.1 ∈ ds)).filter (fun e => e.1 = d)
      = events.filter (fun e => e.1 = d) := by
    rw [List.filter_filter]
    apply List.filter_congr
    intro a _
    by_cases h : a.1 = d
    · simp [h, hd]
    · simp [h]
  rw [heq]

theorem policyHighlights_congr (f g : Nat → Option PolicyRec) (ds : List Nat)
    (hfg : ∀ d ∈ ds, f d = g d) (prev : Option PolicyRec) :
    policyHighlights f ds prev = policyHighlights g ds prev := by
  induction ds generalizing prev with
  | nil => rfl
  | cons d rest ih =>
    have hd : f d = g d := hfg d (by simp)
    have ihr : ∀ pv, policyHighlights f rest pv = policyHighlights g rest pv :=
      fun pv => ih (fun x hx => hfg x (by simp [hx])) pv
    cases hgd : g d with
    | none =>
      simp only [policyHighlights, hd, hgd]
      exact ihr none
    | some pv =>
      simp only [policyHighlights, hd, hgd]
      rw [ihr (some pv)]

/-- C10: the date axis of the response is exactly the dates of the
country's metric rows, and the whole response is unchanged if policy rows
and events at dates with no metric row are dropped beforehand — they are
silently omitted from the policy series, the events list and the
highlight computation. -/
theorem c10_metric_dates_govern (metrics : List (Nat × MetricRec))
    (policies : List (Nat × PolicyRec)) (events : List (Nat × String)) :
    (apiTimeseries metrics policies events).dates = metrics.map (·.1)
    ∧ apiTimeseries metrics policies events
      = apiTimeseries metrics
          (policies.filter (fun q => q.1 ∈ metrics.map (·.1)))
          (events.filter (fun e => e.1 ∈ metrics.map (·.1))) := by
  refine ⟨rfl, ?_⟩
  have hpm : ∀ d ∈ metrics.map (·.1),
      polMap (policies.filter (fun q => q.1 ∈ metrics.map (·.1))) d = polMap policies d :=
    fun d hd => polMap_filter_mem _ policies d hd
  have hev : ∀ d ∈ metrics.map (·.1),
      evTexts (events.filter (fun e => e.1 ∈ metrics.map (·.1))) d = evTexts events d :=
    fun d hd => evTexts_filter_mem _ events d hd
  unfold apiTimeseries
  dsimp only
  congr 1
  all_goals first
    | rfl
    | (apply List.map_congr_left
       intro d hd
       rw [hpm d hd])
    | (apply List.filterMap_congr
       intro d hd
       rw [hev d hd])
    | (rw [policyHighlights_congr
        (polMap (policies.filter (fun q => q.1 ∈ metrics.map (·.1))))
        (polMap policies) (metrics.map (·.1)) hpm none])

/-! ## C8: generic theory of keyed update folds

Each import pass evolves a table by a fold of keyed upserts whose new
value may read the current record (`get_or_create` + conditional field
updates, and `update_or_create` defaults).  This section develops the
generic facts needed to show that replaying the same row list leaves the
table unchanged. -/

section KeyedFold

variable {κ ρ β : Type} [DecidableEq κ] (k : ρ → κ) (g : Option β → ρ → β)

/-- One keyed update: replace the record at `k r` by `g` of the current
record and the row. -/
def kstep (T : List (κ × β)) (r : ρ) : List (κ × β) :=
  upsertA (k r) (g (lookupA (k r) T) r) T

def kfold (T : List (κ × β)) (L : List ρ) : List (κ × β) :=
  L.foldl (kstep k g) T

/-- The per-key value chain: the record obtained by applying `g` for each
row in turn. -/
def vchain (o : Option β) (L : List ρ) : Option β :=
  L.foldl (fun o r => some (g o r)) o

theorem kfold_append (T : List (κ × β)) (l1 l2 : List ρ) :
    kfold k g T (l1 ++ l2) = kfold k g (kfold k g T l1) l2 := by
  simp [kfold, List.foldl_append]

theorem vchain_nil (o : Option β) : vchain g o [] = o := rfl

theorem vchain_cons (o : Option β) (r : ρ) (L : List ρ) :
    vchain g o (r :: L) = vchain g (some (g o r)) L := rfl

theorem vchain_isSome (o : Option β) (L : List ρ) (h : L ≠ []) :
    (vchain g o L).isSome = true := by
  induction L generalizing o with
  | nil => exact absurd rfl h
  | cons r rest ih =>
    rcases rest with _ | ⟨r2, rest2⟩
    · rfl
    · exact ih (some (g o r)) (by simp)

/-- Projection of a keyed fold to one key. -/
theorem lookupA_kfold (T : List (κ × β)) (L : List ρ) (key : κ) :
    lookupA key (kfold k g T L) = vchain g (lookupA key T) (L.filter (fun r => k r = key)) := by
  induction L generalizing T with
  | nil => rfl
  | cons r rest ih =>
    have hkf : kfold k g T (r :: rest) = kfold k g (kstep k g T r) rest := rfl
    rw [hkf, ih (kstep k g T r), List.filter_cons]
    by_cases hk : k r = key
    · rw [if_pos (by simpa using hk), vchain_cons]
      have hstep : lookupA key (kstep k g T r) = some (g (lookupA key T) r) := by
        rw [kstep, ← hk]
        exact lookupA_upsertA_self _ _ _
      rw [hstep]
    · rw [if_neg (by simpa using hk)]
      have hstep : lookupA key (kstep k g T r) = lookupA key T := by
        rw [kstep]
        exact lookupA_upsertA_ne _ _ _ _ (fun h => hk h.symm)
      rw [hstep]

theorem upsertA_map_fst_mem (key : κ) (T : List (κ × β)) (v : β)
    (h : key ∈ T.map Prod.fst) : (upsertA key v T).map Prod.fst = T.map Prod.fst := by
  induction T with
  | nil => simp at h
  | cons hd tl ih =>
    by_cases hk : hd.1 = key
    · simp [upsertA, hk]
    · have : key ∈ tl.map Prod.fst := by
        rcases List.mem_map.mp h with ⟨x, hx, hxe⟩
        rcases List.mem_cons.mp hx with h1 | h1
        · exact absurd (h1 ▸ hxe) hk
        · exact List.mem_map.mpr ⟨x, h1, hxe⟩
      simp [upsertA, hk, ih this]

theorem upsertA_map_fst_notmem (key : κ) (T : List (κ × β)) (v : β)
    (h : key ∉ T.map Prod.fst) :
    (upsertA key v T).map Prod.fst = T.map Prod.fst ++ [key] := by
  induction T with
  | nil => simp [upsertA]
  | cons hd tl ih =>
    have hne : hd.1 ≠ key := by
      intro he
      exact h (by simp [he])
    have htl : key ∉ tl.map Prod.fst := fun hm => h (by simp [hm])
    simp [upsertA, hne, ih htl]

theorem mem_map_fst_of_lookupA_isSome (key : κ) (T : List (κ × β))
    (h : (lookupA key T).isSome = true) : key ∈ T.map Prod.fst := by
  induction T with
  | nil => simp [lookupA] at h
  | cons hd tl ih =>
    by_cases hk : hd.1 = key
    · simp [hk]
    · rw [lookupA, if_neg hk] at h
      simp [ih h]

theorem lookupA_isSome_of_mem_map_fst (key : κ) (T : List (κ × β))
    (h : key ∈ T.map Prod.fst) : (lookupA key T).isSome = true := by
  induction T with
  | nil => simp at h
  | cons hd tl ih =>
    by_cases hk : hd.1 = key
    · simp [lookupA, hk]
    · rw [lookupA, if_neg hk]
      rcases List.mem_map.mp h with ⟨x, hx, hxe⟩
      rcases List.mem_cons.mp hx with h1 | h1
      · exact absurd (h1 ▸ hxe) hk
      · exact ih (List.mem_map.mpr ⟨x, h1, hxe⟩)

theorem kfold_keys_mono (T : List (κ × β)) (L : List ρ) {key : κ}
    (h : key ∈ T.map Prod.fst) : key ∈ (kfold k g T L).map Prod.fst := by
  induction L generalizing T with
  | nil => exact h
  | cons r rest ih =>
    rw [kfold, List.foldl_cons]
    apply ih
    by_cases hk : k r ∈ T.map Prod.fst
    · rw [kstep, upsertA_map_fst_mem _ _ _ hk]
      exact h
    · rw [kstep, upsertA_map_fst_notmem _ _ _ hk]
      exact List.mem_append.mpr (Or.inl h)

theorem kfold_keys_all_mem (T : List (κ × β)) (L : List ρ) {r : ρ} (hr : r ∈ L) :
    k r ∈ (kfold k g T L).map Prod.fst := by
  induction L generalizing T with
  | nil => simp at hr
  | cons r0 rest ih =>
    rw [kfold, List.foldl_cons]
    rcases List.mem_cons.mp hr with h | h
    · subst h
      apply kfold_keys_mono
      by_cases hk : k r ∈ T.map Prod.fst
      · rw [kstep, upsertA_map_fst_mem _ _ _ hk]
        exact hk
      · rw [kstep, upsertA_map_fst_notmem _ _ _ hk]
        simp
    · exact ih _ h

theorem kfold_map_fst_of_all_mem (T : List (κ × β)) (L : List ρ)
    (h : ∀ r ∈ L, k r ∈ T.map Prod.fst) :
    (kfold k g T L).map Prod.fst = T.map Prod.fst := by
  induction L generalizing T with
  | nil => rfl
  | cons r rest ih =>
    rw [kfold, List.foldl_cons]
    have hr := h r (by simp)
    have hkeys : (kstep k g T r).map Prod.fst = T.map Prod.fst := by
      rw [kstep, upsertA_map_fst_mem _ _ _ hr]
    rw [show List.foldl (kstep k g) (kstep k g T r) rest = kfold k g (kstep k g T r) rest from rfl,
      ih (kstep k g T r) (fun r' hr' => hkeys ▸ h r' (by simp [hr'])), hkeys]

theorem kfold_keys_nodup (T : List (κ × β)) (L : List ρ)
    (h : (T.map Prod.fst).Nodup) : ((kfold k g T L).map Prod.fst).Nodup := by
  induction L generalizing T with
  | nil => exact h
  | cons r rest ih =>
    rw [kfold, List.foldl_cons]
    apply ih
    by_cases hk : k r ∈ T.map Prod.fst
    · rw [kstep, upsertA_map_fst_mem _ _ _ hk]
      exact h
    · rw [kstep, upsertA_map_fst_notmem _ _ _ hk]
      refine List.Nodup.append h (List.nodup_singleton _) ?_
      intro a ha hb
      simp only [List.mem_singleton] at hb
      subst hb
      exact hk ha

/-- Two tables with duplicate-free keys, the same key sequence and the
same lookups are equal. -/
theorem table_ext {T1 T2 : List (κ × β)} (hnd : (T1.map Prod.fst).Nodup)
    (hk : T1.map Prod.fst = T2.map Prod.fst)
    (hl : ∀ key, lookupA key T1 = lookupA key T2) : T1 = T2 := by
  induction T1 generalizing T2 with
  | nil =>
    cases T2 with
    | nil => rfl
    | cons hd tl => simp at hk
  | cons hd tl ih =>
    cases T2 with
    | nil => simp at hk
    | cons hd2 tl2 =>
      simp only [List.map_cons, List.cons.injEq] at hk
      obtain ⟨hke, hkt⟩ := hk
      have hv : hd.2 = hd2.2 := by
        have h := hl hd.1
        rw [lookupA, if_pos rfl, lookupA, if_pos hke.symm] at h
        injection h
      have hnd' : (tl.map Prod.fst).Nodup := (List.nodup_cons.mp hnd).2
      have hhd : hd.1 ∉ tl.map Prod.fst := (List.nodup_cons.mp hnd).1
      have htl : tl = tl2 := by
        apply ih hnd' hkt
        intro key
        by_cases hkey : key = hd.1
        · have h1 : lookupA key tl = none := by
            cases hlk : lookupA key tl with
            | none => rfl
            | some v =>
              have hm := mem_map_fst_of_lookupA_isSome key tl (by simp [hlk])
              rw [hkey] at hm
              exact absurd hm hhd
          have h2 : lookupA key tl2 = none := by
            cases hlk : lookupA key tl2 with
            | none => rfl
            | some v =>
              have hm := mem_map_fst_of_lookupA_isSome key tl2 (by simp [hlk])
              rw [← hkt, hkey] at hm
              exact absurd hm hhd
          rw [h1, h2]
        · have := hl key
          rw [lookupA, if_neg (fun h => hkey h.symm), lookupA,
            if_neg (fun h => hkey (hke ▸ h.symm))] at this
          exact this
      calc hd :: tl = (hd.1, hd.2) :: tl := by rfl
        _ = (hd2.1, hd2.2) :: tl2 := by rw [hke, hv, htl]
        _ = hd2 :: tl2 := by rfl

/-- Replaying the same rows over an already-folded table changes
nothing, provided the per-key value chains absorb a replay. -/
theorem kfold_idem (T : List (κ × β)) (L : List ρ) (hnd : (T.map Prod.fst).Nodup)
    (hrep : ∀ key, vchain g (vchain g (lookupA key T) (L.filter (fun r => k r = key)))
        (L.filter (fun r => k r = key))
      = vchain g (lookupA key T) (L.filter (fun r => k r = key))) :
    kfold k g (kfold k g T L) L = kfold k g T L := by
  apply table_ext (kfold_keys_nodup k g (kfold k g T L) L (kfold_keys_nodup k g T L hnd))
  · exact kfold_map_fst_of_all_mem k g _ L (fun r hr => kfold_keys_all_mem k g T L hr)
  · intro key
    simp only [lookupA_kfold]
    exact hrep key

/-- When `g (some (g o r1)) r2 = g o r2` (the new record depends on the
old one only through parts every update preserves), value chains collapse
to their last row. -/
theorem vchain_replay_of_collapse
    (hg : ∀ (o : Option β) (r1 r2 : ρ), g (some (g o r1)) r2 = g o r2)
    (o : Option β) (L : List ρ) : vchain g (vchain g o L) L = vchain g o L := by
  have hnf : ∀ (l : List ρ) (o : Option β), vchain g o l
      = match l.getLast? with
        | none => o
        | some rl => some (g o rl) := by
    intro l
    induction l with
    | nil => intro o; rfl
    | cons r rest ih =>
      intro o
      rw [vchain_cons, ih]
      cases hrl : rest.getLast? with
      | none =>
        have : rest = [] := by
          cases rest with
          | nil => rfl
          | cons x xs => simp [List.getLast?_concat, List.getLast?_eq_none_iff] at hrl
        subst this
        rfl
      | some rl =>
        have : (r :: rest).getLast? = some rl := by
          cases rest with
          | nil => simp at hrl
          | cons x xs => rw [List.getLast?_cons_cons, hrl]
        rw [this]
        dsimp only
        rw [hg]
  cases hl : L.getLast? with
  | none =>
    have : L = [] := List.getLast?_eq_none_iff.mp hl
    subst this
    rfl
  | some rl =>
    rw [hnf L o, hl, hnf L (some (g o rl)), hl]
    dsimp only
    rw [hg]

end KeyedFold

/-! ## C8: country effects

Both passes touch the country table with the same shape of update:
`get_or_create` with a creation name, overwrite-name-if-truthy-and-differs,
overwrite-population-if-truthy-and-stored-falsy-or-differs (the OxCGRT
pass carries no population).  `CEff` captures one such update. -/

structure CEff where
  createName : String
  nameOpt : Option String
  popOpt : Option ℚ
deriving DecidableEq, Repr

/-- Apply one country effect to the stored record (or create). -/
def cApply (stored : Option CountryRec) (e : CEff) : CountryRec :=
  let c0 : CountryRec := match stored with
    | some c => c
    | none => ⟨e.createName, none⟩
  let c1 : CountryRec :=
    if strTruthy e.nameOpt && c0.name ≠ e.nameOpt.getD "" then
      { c0 with name := e.nameOpt.getD "" }
    else c0
  if popTruthy e.popOpt && (!popTruthy c1.population || c1.population ≠ e.popOpt) then
    { c1 with population := e.popOpt }
  else c1

theorem resolveCountry_fst_eq_cApply (stored : Option CountryRec) (iso : String)
    (name : Option String) (pop : Option ℚ) :
    (resolveCountry stored iso name pop).1
      = cApply stored ⟨if strTruthy name then name.getD "" else iso, name, pop⟩ := by
  rcases stored with _ | c <;> rfl

theorem resolveCountryOx_eq_cApply (stored : Option CountryRec) (name : String) :
    resolveCountryOx stored name = cApply stored ⟨name, some name, none⟩ := by
  rcases stored with _ | c <;>
    simp [resolveCountryOx, cApply, strTruthy, popTruthy]

theorem cApply_name_truthy (o : Option CountryRec) (e : CEff)
    (h : strTruthy e.nameOpt = true) : (cApply o e).name = e.nameOpt.getD "" := by
  rcases o with _ | c <;>
  · rw [cApply]
    split
    · split <;> rfl
    · rename_i hcon
      simp only [h, Bool.true_and, Bool.not_eq_true, decide_eq_false_iff_not,
        Decidable.not_not] at hcon
      split <;> simpa using hcon

theorem cApply_name_untruthy (c : CountryRec) (e : CEff)
    (h : strTruthy e.nameOpt = false) : (cApply (some c) e).name = c.name := by
  rw [cApply]
  simp only [h, Bool.false_and, Bool.false_eq_true, if_false]
  split <;> rfl

theorem popStep_pop_truthy (c1 : CountryRec) (e : CEff) (h : popTruthy e.popOpt = true) :
    (if popTruthy e.popOpt && (!popTruthy c1.population || c1.population ≠ e.popOpt) then
        { c1 with population := e.popOpt }
      else c1).population = e.popOpt := by
  split
  · rfl
  · rename_i hcon
    rw [h, Bool.true_and] at hcon
    simp only [Bool.or_eq_true, not_or, Bool.not_eq_true, decide_eq_true_eq,
      Decidable.not_not] at hcon
    exact hcon.2

theorem cApply_pop_truthy (o : Option CountryRec) (e : CEff)
    (h : popTruthy e.popOpt = true) : (cApply o e).population = e.popOpt := by
  rcases o with _ | c <;>
  · rw [cApply]
    exact popStep_pop_truthy _ e h

theorem popStep_pop_untruthy (c1 : CountryRec) (e : CEff) (h : popTruthy e.popOpt = false) :
    (if popTruthy e.popOpt && (!popTruthy c1.population || c1.population ≠ e.popOpt) then
        { c1 with population := e.popOpt }
      else c1).population = c1.population := by
  split
  · rename_i hcon
    rw [h, Bool.false_and] at hcon
    exact absurd hcon (by simp)
  · rfl

theorem nameStep_pop (c0 : CountryRec) (e : CEff) :
    (if strTruthy e.nameOpt && c0.name ≠ e.nameOpt.getD "" then
        { c0 with name := e.nameOpt.getD "" }
      else c0).population = c0.population := by
  split <;> rfl

theorem cApply_pop_untruthy (c : CountryRec) (e : CEff)
    (h : popTruthy e.popOpt = false) : (cApply (some c) e).population = c.population := by
  rw [cApply, popStep_pop_untruthy _ e h]
  exact nameStep_pop c e

/-- The last truthy incoming name of an effect list (later effects win). -/
def lastTruthyName : List CEff → Option String
  | [] => none
  | e :: rest =>
    (lastTruthyName rest).orElse
      (fun _ => if strTruthy e.nameOpt then some (e.nameOpt.getD "") else none)

/-- The last truthy incoming population of an effect list. -/
def lastTruthyPop : List CEff → Option (Option ℚ)
  | [] => none
  | e :: rest =>
    (lastTruthyPop rest).orElse
      (fun _ => if popTruthy e.popOpt then some e.popOpt else none)

/-- The country update used by both passes, over `(code, effect)` pairs. -/
def cG (o : Option CountryRec) (pr : String × CEff) : CountryRec := cApply o pr.2

theorem cvchain_some (c : CountryRec) (l : List (String × CEff)) :
    vchain cG (some c) l
      = some ⟨(lastTruthyName (l.map Prod.snd)).getD c.name,
              (lastTruthyPop (l.map Prod.snd)).getD c.population⟩ := by
  induction l generalizing c with
  | nil => simp [vchain_nil, lastTruthyName, lastTruthyPop]
  | cons pr l' ih =>
    rw [vchain_cons, ih]
    simp only [List.map_cons, lastTruthyName, lastTruthyPop]
    have hname : (lastTruthyName (l'.map Prod.snd)).getD (cG (some c) pr).name
        = ((lastTruthyName (l'.map Prod.snd)).orElse
            (fun _ => if strTruthy pr.2.nameOpt then some (pr.2.nameOpt.getD "") else none)).getD
            c.name := by
      cases hln : lastTruthyName (l'.map Prod.snd) with
      | some nm => simp [Option.orElse]
      | none =>
        simp only [Option.orElse, Option.getD]
        cases ht : strTruthy pr.2.nameOpt with
        | true => simp [cG, cApply_name_truthy _ _ ht, Option.getD]
        | false => simp [cG, cApply_name_untruthy _ _ ht]
    have hpop : (lastTruthyPop (l'.map Prod.snd)).getD (cG (some c) pr).population
        = ((lastTruthyPop (l'.map Prod.snd)).orElse
            (fun _ => if popTruthy pr.2.popOpt then some pr.2.popOpt else none)).getD
            c.population := by
      cases hlp : lastTruthyPop (l'.map Prod.snd) with
      | some pv => simp [Option.orElse]
      | none =>
        simp only [Option.orElse, Option.getD]
        cases ht : popTruthy pr.2.popOpt with
        | true => simp [cG, cApply_pop_truthy _ _ ht, Option.getD]
        | false => simp [cG, cApply_pop_untruthy _ _ ht]
    rw [hname, hpop]

/-- Replaying a country effect list over its own result changes
nothing. -/
theorem cvchain_replay (o : Option CountryRec) (l : List (String × CEff)) :
    vchain cG (vchain cG o l) l = vchain cG o l := by
  cases l with
  | nil => rfl
  | cons pr l' =>
    have h1 : vchain cG o (pr :: l') = some
        ⟨(lastTruthyName (l'.map Prod.snd)).getD (cG o pr).name,
         (lastTruthyPop (l'.map Prod.snd)).getD (cG o pr).population⟩ := by
      rw [vchain_cons, cvchain_some]
    rw [h1, vchain_cons, cvchain_some]
    have hname : (lastTruthyName (l'.map Prod.snd)).getD
        (cG (some ⟨(lastTruthyName (l'.map Prod.snd)).getD (cG o pr).name,
          (lastTruthyPop (l'.map Prod.snd)).getD (cG o pr).population⟩) pr).name
        = (lastTruthyName (l'.map Prod.snd)).getD (cG o pr).name := by
      cases hln : lastTruthyName (l'.map Prod.snd) with
      | some nm => simp [Option.getD]
      | none =>
        simp only [Option.getD_none]
        cases ht : strTruthy pr.2.nameOpt with
        | true => simp [cG, cApply_name_truthy _ _ ht]
        | false => simp [cG, cApply_name_untruthy _ _ ht]
    have hpop : (lastTruthyPop (l'.map Prod.snd)).getD
        (cG (some ⟨(lastTruthyName (l'.map Prod.snd)).getD (cG o pr).name,
          (lastTruthyPop (l'.map Prod.snd)).getD (cG o pr).population⟩) pr).population
        = (lastTruthyPop (l'.map Prod.snd)).getD (cG o pr).population := by
      cases hlp : lastTruthyPop (l'.map Prod.snd) with
      | some pv => simp [Option.getD]
      | none =>
        simp only [Option.getD_none]
        cases ht : popTruthy pr.2.popOpt with
        | true => simp [cG, cApply_pop_truthy _ _ ht]
        | false => simp [cG, cApply_pop_untruthy _ _ ht]
    rw [hname, hpop]

/-! ## C8: factoring the import folds through processed-row lists

Which rows a pass processes depends only on the rows themselves and the
running `seen_countries` set, never on the store; the store evolution is
the fold of a guard-free step over that processed-row list. -/

/-- The parsed date of a date cell (`0` for rows the import never
processes; only applied to processed rows). -/
def dateOfStr (s : Option String) : Nat :=
  match parse_date s with
  | .ok (some d) => d
  | _ => 0

def owidKey (r : OwidRow) : SKey := (owidIso r, dateOfStr r.date)

/-- The metric update of one processed OWID row. -/
def mG (o : Option MetricRec) (r : OwidRow) : MetricRec := metricFromRow o r

/-- The country effect of one processed OWID row. -/
def owidEffPair (r : OwidRow) : String × CEff :=
  (owidIso r,
    ⟨if strTruthy r.location then r.location.getD "" else owidIso r, r.location, r.population⟩)

/-- The guard-free store update of one processed OWID row. -/
def owidDbStep (db : DB) (r : OwidRow) : DB :=
  { db with
      countries := kstep Prod.fst cG db.countries (owidEffPair r)
      metrics := kstep owidKey mG db.metrics r }

/-- The rows of an OWID feed that reach the store, in order. -/
def owidProcessedRows (limit : Nat) : List String → List OwidRow → List OwidRow
  | _, [] => []
  | seen, r :: rest =>
    if owidIso r = "" || strStartsWith (owidIso r) "OWID_" then
      owidProcessedRows limit seen rest
    else if limit ≠ 0 ∧ owidIso r ∉ seen ∧ limit ≤ seen.length then
      owidProcessedRows limit seen rest
    else
      match parse_date r.date with
      | .ok (some _) =>
        r :: owidProcessedRows limit
          (if owidIso r ∈ seen then seen else seen ++ [owidIso r]) rest
      | _ => owidProcessedRows limit seen rest

def oxKey (r : OxRow) : SKey := (oxIso r, dateOfStr r.date)

/-- The policy update of one processed OxCGRT row (a plain replace). -/
def pG (_ : Option PolicyRec) (r : OxRow) : PolicyRec := policyFromRow r

/-- The country effect of one processed OxCGRT row. -/
def oxEffPair (r : OxRow) : String × CEff :=
  (oxIso r, ⟨oxName r, some (oxName r), none⟩)

/-- The guard-free store update of one processed OxCGRT row. -/
def oxDbStep (db : DB) (r : OxRow) : DB :=
  { db with
      countries := kstep Prod.fst cG db.countries (oxEffPair r)
      policies := kstep oxKey pG db.policies r }

/-- The rows of an OxCGRT feed that reach the store, in order. -/
def oxProcessedRows (limit : Nat) : List String → List OxRow → List OxRow
  | _, [] => []
  | seen, r :: rest =>
    if oxName r = "" then oxProcessedRows limit seen rest
    else if limit ≠ 0 ∧ oxIso r ∉ seen ∧ limit ≤ seen.length then
      oxProcessedRows limit seen rest
    else
      match parse_date r.date with
      | .ok (some _) =>
        r :: oxProcessedRows limit
          (if oxIso r ∈ seen then seen else seen ++ [oxIso r]) rest
      | _ => oxProcessedRows limit seen rest

/-- The final `seen_countries` set of the OxCGRT pass. -/
def oxSeenFold (limit : Nat) : List String → List OxRow → List String
  | seen, [] => seen
  | seen, r :: rest =>
    if oxName r = "" then oxSeenFold limit seen rest
    else if limit ≠ 0 ∧ oxIso r ∉ seen ∧ limit ≤ seen.length then
      oxSeenFold limit seen rest
    else
      match parse_date r.date with
      | .ok (some _) =>
        oxSeenFold limit (if oxIso r ∈ seen then seen else seen ++ [oxIso r]) rest
      | _ => oxSeenFold limit seen rest

theorem except_bind_ok {ε α β : Type} (a : α) (f : α → Except ε β) :
    (Except.ok a >>= f) = f a := rfl

theorem except_bind_error {ε α β : Type} (e : ε) (f : α → Except ε β) :
    (Except.error e >>= f) = Except.error e := rfl

/-- A successful OWID fold is the guard-free fold over the processed
rows. -/
theorem owidFold_eq (limit : Nat) (rows : List OwidRow) :
    ∀ (seen : List String) (db : DB) (st : List String × DB),
      List.foldlM (owidStep limit) (seen, db) rows = .ok st →
      st.2 = (owidProcessedRows limit seen rows).foldl owidDbStep db := by
  induction rows with
  | nil =>
    intro seen db st h
    simp only [List.foldlM_nil, pure, Except.pure] at h
    injection h with h
    rw [← h]
    rfl
  | cons r rest ih =>
    intro seen db st h
    rw [List.foldlM_cons] at h
    by_cases hg1 : (owidIso r = "" || strStartsWith (owidIso r) "OWID_") = true
    · rw [owidStep, if_pos hg1, except_bind_ok] at h
      rw [owidProcessedRows, if_pos hg1]
      exact ih seen db st h
    · by_cases hg2 : limit ≠ 0 ∧ owidIso r ∉ seen ∧ limit ≤ seen.length
      · rw [owidStep, if_neg hg1, if_pos hg2, except_bind_ok] at h
        rw [owidProcessedRows, if_neg hg1, if_pos hg2]
        exact ih seen db st h
      · rw [owidStep, if_neg hg1, if_neg hg2] at h
        rw [owidProcessedRows, if_neg hg1, if_neg hg2]
        cases hpd : parse_date r.date with
        | error e =>
          rw [hpd, except_bind_error] at h
          exact absurd h (by simp)
        | ok od =>
          cases od with
          | none =>
            rw [hpd, except_bind_ok] at h
            exact ih seen db st h
          | some d =>
            rw [hpd, except_bind_ok] at h
            have hdb : ({ db with
                countries := upsertA (owidIso r)
                  ((resolveCountry (lookupA (owidIso r) db.countries) (owidIso r)
                    r.location r.population).1) db.countries
                metrics := upsertMetric db.metrics (owidIso r, d) r } : DB)
                = owidDbStep db r := by
              rw [owidDbStep]
              have hc : upsertA (owidIso r)
                  ((resolveCountry (lookupA (owidIso r) db.countries) (owidIso r)
                    r.location r.population).1) db.countries
                  = kstep Prod.fst cG db.countries (owidEffPair r) := by
                rw [kstep, resolveCountry_fst_eq_cApply]
                rfl
              have hm : upsertMetric db.metrics (owidIso r, d) r
                  = kstep owidKey mG db.metrics r := by
                rw [kstep, upsertMetric, owidKey]
                have : dateOfStr r.date = d := by
                  rw [dateOfStr, hpd]
                rw [this]
                rfl
              rw [hc, hm]
            rw [hdb] at h
            rw [List.foldl_cons]
            exact ih _ _ st h

/-- A successful OxCGRT fold is the guard-free fold over the processed
rows, and its final `seen_countries` is the pure seen fold. -/
theorem oxFold_eq (limit : Nat) (rows : List OxRow) :
    ∀ (seen : List String) (db : DB) (st : List String × DB),
      List.foldlM (oxStep limit) (seen, db) rows = .ok st →
      st.2 = (oxProcessedRows limit seen rows).foldl oxDbStep db
      ∧ st.1 = oxSeenFold limit seen rows := by
  induction rows with
  | nil =>
    intro seen db st h
    simp only [List.foldlM_nil, pure, Except.pure] at h
    injection h with h
    rw [← h]
    exact ⟨rfl, rfl⟩
  | cons r rest ih =>
    intro seen db st h
    rw [List.foldlM_cons] at h
    by_cases hg1 : oxName r = ""
    · rw [oxStep, if_pos hg1, except_bind_ok] at h
      rw [oxProcessedRows, if_pos hg1, oxSeenFold, if_pos hg1]
      exact ih seen db st h
    · by_cases hg2 : limit ≠ 0 ∧ oxIso r ∉ seen ∧ limit ≤ seen.length
      · rw [oxStep, if_neg hg1, if_pos hg2, except_bind_ok] at h
        rw [oxProcessedRows, if_neg hg1, if_pos hg2, oxSeenFold, if_neg hg1, if_pos hg2]
        exact ih seen db st h
      · rw [oxStep, if_neg hg1, if_neg hg2] at h
        rw [oxProcessedRows, if_neg hg1, if_neg hg2, oxSeenFold, if_neg hg1, if_neg hg2]
        cases hpd : parse_date r.date with
        | error e =>
          rw [hpd, except_bind_error] at h
          exact absurd h (by simp)
        | ok od =>
          cases od with
          | none =>
            rw [hpd, except_bind_ok] at h
            exact ih seen db st h
          | some d =>
            rw [hpd, except_bind_ok] at h
            have hdb : ({ db with
                countries := upsertA (oxIso r)
                  (resolveCountryOx (lookupA (oxIso r) db.countries) (oxName r)) db.countries
                policies := upsertA (oxIso r, d) (policyFromRow r) db.policies } : DB)
                = oxDbStep db r := by
              rw [oxDbStep]
              have hc : upsertA (oxIso r)
                  (resolveCountryOx (lookupA (oxIso r) db.countries) (oxName r)) db.countries
                  = kstep Prod.fst cG db.countries (oxEffPair r) := by
                rw [kstep, resolveCountryOx_eq_cApply]
                rfl
              have hp : upsertA (oxIso r, d) (policyFromRow r) db.policies
                  = kstep oxKey pG db.policies r := by
                rw [kstep, oxKey]
                have : dateOfStr r.date = d := by
                  rw [dateOfStr, hpd]
                rw [this]
                rfl
              rw [hc, hp]
            rw [hdb] at h
            rw [List.foldl_cons]
            exact ih _ _ st h

/-! ## C8: component decomposition and event regeneration facts -/

theorem foldl_owidDbStep_components (P : List OwidRow) : ∀ db : DB,
    (P.foldl owidDbStep db).countries = kfold Prod.fst cG db.countries (P.map owidEffPair)
    ∧ (P.foldl owidDbStep db).metrics = kfold owidKey mG db.metrics P
    ∧ (P.foldl owidDbStep db).policies = db.policies
    ∧ (P.foldl owidDbStep db).events = db.events := by
  induction P with
  | nil => exact fun db => ⟨rfl, rfl, rfl, rfl⟩
  | cons r rest ih =>
    intro db
    rw [List.foldl_cons]
    obtain ⟨h1, h2, h3, h4⟩ := ih (owidDbStep db r)
    exact ⟨h1, h2, h3, h4⟩

theorem foldl_oxDbStep_components (P : List OxRow) : ∀ db : DB,
    (P.foldl oxDbStep db).countries = kfold Prod.fst cG db.countries (P.map oxEffPair)
    ∧ (P.foldl oxDbStep db).policies = kfold oxKey pG db.policies P
    ∧ (P.foldl oxDbStep db).metrics = db.metrics
    ∧ (P.foldl oxDbStep db).events = db.events := by
  induction P with
  | nil => exact fun db => ⟨rfl, rfl, rfl, rfl⟩
  | cons r rest ih =>
    intro db
    rw [List.foldl_cons]
    obtain ⟨h1, h2, h3, h4⟩ := ih (oxDbStep db r)
    exact ⟨h1, h2, h3, h4⟩

theorem regenStep_components (db : DB) (iso : String) :
    (regenStep db iso).countries = db.countries
    ∧ (regenStep db iso).metrics = db.metrics
    ∧ (regenStep db iso).policies = db.policies := by
  rw [regenStep]
  cases lookupA iso db.countries <;> exact ⟨rfl, rfl, rfl⟩

theorem generatePolicyEvents_components (S : List String) : ∀ db : DB,
    (generatePolicyEvents db S).countries = db.countries
    ∧ (generatePolicyEvents db S).metrics = db.metrics
    ∧ (generatePolicyEvents db S).policies = db.policies := by
  induction S with
  | nil => exact fun db => ⟨rfl, rfl, rfl⟩
  | cons iso S' ih =>
    intro db
    have hstep := regenStep_components db iso
    have hrest := ih (regenStep db iso)
    exact ⟨hrest.1.trans hstep.1, hrest.2.1.trans hstep.2.1, hrest.2.2.trans hstep.2.2⟩

theorem regen_events_notmem (S : List String) : ∀ (db : DB) (iso : String), iso ∉ S →
    lookupA iso (generatePolicyEvents db S).events = lookupA iso db.events := by
  induction S with
  | nil => exact fun db iso _ => rfl
  | cons iso0 S' ih =>
    intro db iso h
    have hne : iso ≠ iso0 := fun he => h (by simp [he])
    have hS' : iso ∉ S' := fun hm => h (by simp [hm])
    have hstep : lookupA iso (regenStep db iso0).events = lookupA iso db.events := by
      rw [regenStep]
      cases lookupA iso0 db.countries with
      | none => rfl
      | some c => exact lookupA_upsertA_ne _ _ _ _ hne
    exact (ih (regenStep db iso0) iso hS').trans hstep

theorem regen_fix (S : List String) : ∀ db : DB, (∀ iso ∈ S, regenStep db iso = db) →
    generatePolicyEvents db S = db := by
  induction S with
  | nil => exact fun db _ => rfl
  | cons iso0 S' ih =>
    intro db h
    have h0 : regenStep db iso0 = db := h iso0 (by simp)
    show generatePolicyEvents (regenStep db iso0) S' = db
    rw [h0]
    exact ih db (fun iso hm => h iso (by simp [hm]))

theorem upsertA_absorb {κ β : Type} [DecidableEq κ] (key : κ) (v : β)
    (T : List (κ × β)) (h : lookupA key T = some v) : upsertA key v T = T := by
  induction T with
  | nil => simp [lookupA] at h
  | cons hd tl ih =>
    by_cases hk : hd.1 = key
    · rw [lookupA, if_pos hk] at h
      injection h with h
      rw [upsertA, if_pos hk, ← h, ← hk]
    · rw [lookupA, if_neg hk] at h
      rw [upsertA, if_neg hk, ih h]

/-- After a regeneration pass, every touched code either has no country
row or carries exactly the events derived from the final policy table. -/
theorem regen_post (S : List String) : ∀ (db : DB) (iso : String), iso ∈ S →
    lookupA iso db.countries = none
    ∨ lookupA iso (generatePolicyEvents db S).events
        = some (generateEventsFor (policyRowsOf db.policies iso)) := by
  induction S with
  | nil => intro db iso h; simp at h
  | cons iso0 S' ih =>
    intro db iso h
    have hcomp := regenStep_components db iso0
    by_cases hS' : iso ∈ S'
    · rcases ih (regenStep db iso0) iso hS' with hl | hr
      · exact Or.inl (by rw [← hcomp.1]; exact hl)
      · refine Or.inr ?_
        show lookupA iso (generatePolicyEvents (regenStep db iso0) S').events = _
        rw [hr, hcomp.2.2]
    · have hiso : iso = iso0 := by
        rcases List.mem_cons.mp h with h0 | h0
        · exact h0
        · exact absurd h0 hS'
      subst hiso
      cases hc : lookupA iso db.countries with
      | none => exact Or.inl rfl
      | some c =>
        right
        have hstep : lookupA iso (regenStep db iso).events
            = some (generateEventsFor (policyRowsOf db.policies iso)) := by
          rw [regenStep, hc]
          exact lookupA_upsertA_self _ _ _
        have := regen_events_notmem S' (regenStep db iso) iso hS'
        rw [show generatePolicyEvents db (iso :: S')
            = generatePolicyEvents (regenStep db iso) S' from rfl, this, hstep]

/-! ## C8: the idempotence theorem -/

theorem metricFromRow_collapse (o : Option MetricRec) (r1 r2 : OwidRow) :
    metricFromRow (some (metricFromRow o r1)) r2 = metricFromRow o r2 := by
  simp [metricFromRow]

/-- A one-country OWID feed for exercising the import end to end. -/
def c8wORows : List OwidRow :=
  [⟨some "DEU", some "Germany", some 1000, some "2021-01-05",
    some 100, some 2, some 1000, some 20, some 12, some 1, some 3, some 1⟩]

/-- A two-day OxCGRT feed with one ordinal change, so that event
regeneration produces a real event. -/
def c8wPRows : List OxRow :=
  [⟨some "DEU", some "Germany", some "2021-01-05", some 40, some 1, some 0,
    some 0, some 1, some 0⟩,
   ⟨some "DEU", some "Germany", some "2021-01-06", some 40, some 2, some 0,
    some 0, some 1, some 0⟩]

def c8wDB1 : DB := (runImport 0 emptyDB c8wORows c8wPRows).toOption.getD emptyDB

def c8wDB2 : DB := (runImport 0 c8wDB1 c8wORows c8wPRows).toOption.getD emptyDB

/-- C8: running the full import (OWID pass, then OxCGRT pass with event
regeneration) a second time on the same feeds yields the same stored
state: every table is unchanged, including the regenerated events, and
the `(country, date)` keys stay duplicate-free. -/
theorem c8_reimport_idempotent (limit : Nat) (db db1 db2 : DB)
    (orows : List OwidRow) (prows : List OxRow)
    (hcn : (db.countries.map Prod.fst).Nodup)
    (hmn : (db.metrics.map Prod.fst).Nodup)
    (hpn : (db.policies.map Prod.fst).Nodup)
    (h1 : runImport limit db orows prows = .ok db1)
    (h2 : runImport limit db1 orows prows = .ok db2) :
    db2 = db1 ∧ (db2.metrics.map Prod.fst).Nodup
    ∧ (db2.policies.map Prod.fst).Nodup := by
  -- Invert the monadic structure of both runs.
  have inv : ∀ (d0 d' : DB), runImport limit d0 orows prows = .ok d' →
      ∃ stx : List String × DB,
        List.foldlM (oxStep limit)
          ([], (owidProcessedRows limit [] orows).foldl owidDbStep d0) prows = .ok stx
        ∧ d' = generatePolicyEvents stx.2 stx.1 := by
    intro d0 d' h
    simp only [runImport, importOwid, importOxcgrt, bind, Except.bind] at h
    cases hof : List.foldlM (owidStep limit) ([], d0) orows with
    | error e => rw [hof] at h; simp [Except.map] at h
    | ok sto =>
      rw [hof] at h
      simp only [Except.map] at h
      cases hxf : List.foldlM (oxStep limit) ([], sto.2) prows with
      | error e => rw [hxf] at h; simp at h
      | ok stx =>
        rw [hxf] at h
        simp only [pure, Except.pure, Except.ok.injEq] at h
        have hsto : sto.2 = (owidProcessedRows limit [] orows).foldl owidDbStep d0 :=
          owidFold_eq limit orows [] d0 sto hof
        rw [hsto] at hxf
        exact ⟨stx, hxf, h.symm⟩
  obtain ⟨stx1, hxf1, hdb1⟩ := inv db db1 h1
  obtain ⟨stx2, hxf2, hdb2⟩ := inv db1 db2 h2
  obtain ⟨hx1db, hx1seen⟩ := oxFold_eq limit prows [] _ stx1 hxf1
  obtain ⟨hx2db, hx2seen⟩ := oxFold_eq limit prows [] _ stx2 hxf2
  -- Name the pure data shared by both runs.
  set POW := owidProcessedRows limit [] orows with hPOW
  set POX := oxProcessedRows limit [] prows with hPOX
  set S := oxSeenFold limit [] prows with hS
  set EC := POW.map owidEffPair ++ POX.map oxEffPair with hEC
  set dbx1 := POX.foldl oxDbStep (POW.foldl owidDbStep db) with hdbx1
  set dbx2 := POX.foldl oxDbStep (POW.foldl owidDbStep db1) with hdbx2
  have hx1 : stx1.2 = dbx1 := hx1db
  have hx2 : stx2.2 = dbx2 := hx2db
  have hdb1' : db1 = generatePolicyEvents dbx1 S := by
    rw [hdb1, hx1, hx1seen]
  have hdb2' : db2 = generatePolicyEvents dbx2 S := by
    rw [hdb2, hx2, hx2seen]
  -- Countries of the intermediate stores.
  have hc1 : dbx1.countries = kfold Prod.fst cG db.countries EC := by
    rw [hdbx1]
    have ha := (foldl_oxDbStep_components POX (POW.foldl owidDbStep db)).1
    have hb := (foldl_owidDbStep_components POW db).1
    rw [ha, hb, hEC]
    exact (kfold_append Prod.fst cG db.countries _ _).symm
  have hc2 : dbx2.countries = kfold Prod.fst cG db1.countries EC := by
    rw [hdbx2]
    have ha := (foldl_oxDbStep_components POX (POW.foldl owidDbStep db1)).1
    have hb := (foldl_owidDbStep_components POW db1).1
    rw [ha, hb, hEC]
    exact (kfold_append Prod.fst cG db1.countries _ _).symm
  have hc1' : db1.countries = dbx1.countries := by
    rw [hdb1']
    exact (generatePolicyEvents_components S dbx1).1
  have hc2' : db2.countries = dbx2.countries := by
    rw [hdb2']
    exact (generatePolicyEvents_components S dbx2).1
  have hceq : db2.countries = db1.countries := by
    rw [hc2', hc2, hc1', hc1]
    exact kfold_idem Prod.fst cG db.countries EC hcn
      (fun key => cvchain_replay _ _)
  -- Metrics.
  have hm1 : dbx1.metrics = kfold owidKey mG db.metrics POW := by
    rw [hdbx1, (foldl_oxDbStep_components POX _).2.2.1,
      (foldl_owidDbStep_components POW db).2.1]
  have hm2 : dbx2.metrics = kfold owidKey mG db1.metrics POW := by
    rw [hdbx2, (foldl_oxDbStep_components POX _).2.2.1,
      (foldl_owidDbStep_components POW db1).2.1]
  have hm1' : db1.metrics = dbx1.metrics := by
    rw [hdb1']
    exact (generatePolicyEvents_components S dbx1).2.1
  have hm2' : db2.metrics = dbx2.metrics := by
    rw [hdb2']
    exact (generatePolicyEvents_components S dbx2).2.1
  have hmeq : db2.metrics = db1.metrics := by
    rw [hm2', hm2, hm1', hm1]
    exact kfold_idem owidKey mG db.metrics POW hmn
      (fun key => vchain_replay_of_collapse mG metricFromRow_collapse _ _)
  -- Policies.
  have hp1 : dbx1.policies = kfold oxKey pG db.policies POX := by
    rw [hdbx1, (foldl_oxDbStep_components POX _).2.1,
      (foldl_owidDbStep_components POW db).2.2.1]
  have hp2 : dbx2.policies = kfold oxKey pG db1.policies POX := by
    rw [hdbx2, (foldl_oxDbStep_components POX _).2.1,
      (foldl_owidDbStep_components POW db1).2.2.1]
  have hp1' : db1.policies = dbx1.policies := by
    rw [hdb1']
    exact (generatePolicyEvents_components S dbx1).2.2
  have hp2' : db2.policies = dbx2.policies := by
    rw [hdb2']
    exact (generatePolicyEvents_components S dbx2).2.2
  have hpeq : db2.policies = db1.policies := by
    rw [hp2', hp2, hp1', hp1]
    exact kfold_idem oxKey pG db.policies POX hpn
      (fun key => vchain_replay_of_collapse pG (fun _ _ _ => rfl) _ _)
  -- Events: the second regeneration re-derives the values already stored.
  have hev2 : dbx2.events = db1.events := by
    rw [hdbx2, (foldl_oxDbStep_components POX _).2.2.2,
      (foldl_owidDbStep_components POW db1).2.2.2]
  have hfix : ∀ iso ∈ S, regenStep dbx2 iso = dbx2 := by
    intro iso hiso
    rw [regenStep]
    cases hlc : lookupA iso dbx2.countries with
    | none => rfl
    | some c =>
      have hlc1 : lookupA iso dbx1.countries = some c := by
        rw [← hc1', ← hceq, hc2']
        exact hlc
      rcases regen_post S dbx1 iso hiso with hl | hr
      · rw [hl] at hlc1
        exact absurd hlc1 (by simp)
      · have hpol : dbx2.policies = dbx1.policies := by
          rw [← hp2', hpeq, hp1']
        have habs : upsertA iso
            (generateEventsFor (policyRowsOf dbx2.policies iso)) dbx2.events
            = dbx2.events := by
          apply upsertA_absorb
          rw [hev2, hdb1', hpol]
          exact hr
        rw [habs]
  have hdb2eq : db2 = dbx2 := by
    rw [hdb2']
    exact regen_fix S dbx2 hfix
  -- Assemble: every component of `db2` equals the one of `db1`.
  have heveq : db2.events = db1.events := by
    rw [hdb2eq, hev2]
  refine ⟨?_, ?_, ?_⟩
  · cases hd2 : db2 with
    | mk c2 m2 p2 e2 =>
      cases hd1 : db1 with
      | mk c1 m1 p1 e1 =>
        have h1' := hceq
        have h2' := hmeq
        have h3' := hpeq
        have h4' := heveq
        rw [hd2, hd1] at h1' h2' h3' h4'
        simp only at h1' h2' h3' h4'
        rw [h1', h2', h3', h4']
  · rw [hmeq, hm1', hm1]
    exact kfold_keys_nodup owidKey mG db.metrics POW hmn
  · rw [hpeq, hp1', hp1]
    exact kfold_keys_nodup oxKey pG db.policies POX hpn

set_option maxRecDepth 8000 in
theorem c8_witness :
    (emptyDB.countries.map Prod.fst).Nodup
    ∧ (emptyDB.metrics.map Prod.fst).Nodup
    ∧ (emptyDB.policies.map Prod.fst).Nodup
    ∧ runImport 0 emptyDB c8wORows c8wPRows = .ok c8wDB1
    ∧ runImport 0 c8wDB1 c8wORows c8wPRows = .ok c8wDB2
    ∧ (c8wDB2 = c8wDB1 ∧ (c8wDB2.metrics.map Prod.fst).Nodup
        ∧ (c8wDB2.policies.map Prod.fst).Nodup) :=
  ⟨by decide, by decide, by decide, by decide, by decide,
    c8_reimport_idempotent 0 emptyDB c8wDB1 c8wDB2 c8wORows c8wPRows
      (by decide) (by decide) (by decide) (by decide) (by decide)⟩

end Covid
